import Mathlib

/-!
# winestreamproxy: proxy object and connection registry (`src/proxy/proxy.c`)

A shallow embedding of `create_proxy`, `destroy_proxy`, `allocate_connection` and
`deallocate_connection`.

* Pointers are addresses (`Nat`); the C null pointer is `none`.
* The process heap maps an address to the block living there (a `proxy_data` or a
  `connection_list_entry`); a freed or never allocated address maps to `none`.
* `HeapAlloc` and `CreateEvent` take the value the operating system hands back as an
  argument (`none` is the failure value `NULL`).
* Dereferencing a null or dangling pointer and freeing a block twice are undefined
  behaviour in C; the embedding reports them as `Outcome.undefined_behaviour`.
* `assert` aborts unless the unit is compiled with `NDEBUG`; the flag is an argument of every
  function that contains an `assert`.
* The `LOG_TRACE` / `LOG_CRITICAL` macros come from the logger header, which is not part of
  the unit; they only read `proxy->logger`, and that read is the part that is embedded.
-/

namespace Winestreamproxy

/-! ## Data model -/

/-- A non-null address. A C pointer is an `Option Ptr`, with `none` for `NULL`. -/
abbrev Ptr := Nat

/-- A Windows `HANDLE`; `none` is `NULL`. -/
abbrev HANDLE := Option Nat

/-- The type `connection_paths` is declared in a header outside the unit; `create_proxy` only
copies a value of it, so its contents are left uninterpreted. -/
structure connection_paths where
  raw : List Nat
  deriving DecidableEq, Repr

/-- The part of `OVERLAPPED` the unit touches. -/
structure OVERLAPPED where
  hEvent : HANDLE
  deriving DecidableEq, Repr

/-- The fields of `proxy_data` that `proxy.c` reads or writes. -/
structure proxy_data where
  logger : Option Ptr
  paths : connection_paths
  exit_event : HANDLE
  connect_overlapped : OVERLAPPED
  connections_start : Option Ptr
  connections_end : Option Ptr
  deriving DecidableEq, Repr

/-- The links of a `connection_list_entry`. The `connection` member is only ever used through
its address (`&entry->connection`); its contents are never read or written by the unit. -/
structure connection_list_entry where
  previous : Option Ptr
  next : Option Ptr
  deriving DecidableEq, Repr

/-- A live heap block. -/
inductive Block where
  | proxy (p : proxy_data)
  | entry (e : connection_list_entry)
  deriving DecidableEq, Repr

/-- A kernel event object, as created by `CreateEvent`. -/
structure event_object where
  manual_reset : Bool
  signaled : Bool
  deriving DecidableEq, Repr

/-- The releasing system calls the unit makes, recorded in call order. -/
inductive Call where
  | HeapFree (p : Ptr)
  | CloseHandle (h : HANDLE)
  deriving DecidableEq, Repr

/-- The state of the process: heap, handle table and the record of releasing calls. -/
structure Process where
  heap : Ptr → Option Block
  handles : Nat → Option event_object
  calls : List Call

/-- How a C function ends. -/
inductive Outcome (α : Type) where
  | ok (a : α)
  | assert_failed (line : Nat)
  | undefined_behaviour
  | out_of_fuel

/-- Sequencing of C statements: the first fault ends the run. -/
def Outcome.bind {α β : Type} (x : Outcome α) (f : α → Outcome β) : Outcome β :=
  match x with
  | Outcome.ok a => f a
  | Outcome.assert_failed l => Outcome.assert_failed l
  | Outcome.undefined_behaviour => Outcome.undefined_behaviour
  | Outcome.out_of_fuel => Outcome.out_of_fuel

instance : Monad Outcome where
  pure := Outcome.ok
  bind := Outcome.bind

/-! ## Memory primitives -/

/-- The process before anything is allocated. -/
def Process.empty : Process :=
  { heap := fun _ => none, handles := fun _ => none, calls := [] }

/-- Overwrite the block at `p`. -/
def Process.store (s : Process) (p : Ptr) (b : Block) : Process :=
  { s with heap := fun q => if q = p then some b else s.heap q }

/-- Read `*p` as a `proxy_data`. -/
def Process.load_proxy (s : Process) (p : Ptr) : Outcome proxy_data :=
  match s.heap p with
  | some (Block.proxy d) => Outcome.ok d
  | _ => Outcome.undefined_behaviour

/-- Read `*p` as a `connection_list_entry`; `p` may be null. -/
def Process.load_entry (s : Process) (p : Option Ptr) : Outcome connection_list_entry :=
  match p with
  | none => Outcome.undefined_behaviour
  | some a =>
    match s.heap a with
    | some (Block.entry e) => Outcome.ok e
    | _ => Outcome.undefined_behaviour

/-- The call `HeapAlloc(GetProcessHeap(), HEAP_ZERO_MEMORY, sizeof ...)`: `choice` is the address
the allocator returns (`none` for `NULL`), `zero` the all-zero block of the requested type. The
allocator only hands out addresses that are not live; the theorems carry that as a hypothesis
(`s.heap p = none`). -/
def HeapAlloc (choice : Option Ptr) (zero : Block) (s : Process) : Option Ptr × Process :=
  match choice with
  | none => (none, s)
  | some p => (some p, s.store p zero)

/-- The call `HeapFree(GetProcessHeap(), 0, p)`. -/
def HeapFree (p : Ptr) (s : Process) : Outcome Process :=
  match s.heap p with
  | none => Outcome.undefined_behaviour
  | some _ =>
    Outcome.ok { s with heap := (fun q => if q = p then none else s.heap q),
                        calls := s.calls ++ [Call.HeapFree p] }

/-- The call `CreateEvent(NULL, manual_reset, initial_state, NULL)`: `choice` is the handle the
kernel returns (`none` for `NULL`). -/
def CreateEvent (choice : Option Nat) (manual_reset initial_state : Bool) (s : Process) :
    HANDLE × Process :=
  match choice with
  | none => (none, s)
  | some h =>
    let ev : event_object := { manual_reset := manual_reset, signaled := initial_state }
    (some h, { s with handles := (fun k => if k = h then some ev else s.handles k) })

/-- The call `CloseHandle(h)`; closing an invalid handle only fails the call. -/
def CloseHandle (h : HANDLE) (s : Process) : Process :=
  match h with
  | none => { s with calls := s.calls ++ [Call.CloseHandle h] }
  | some k =>
    { s with handles := (fun j => if j = k then none else s.handles j),
             calls := s.calls ++ [Call.CloseHandle h] }

/-- The macro `assert(cond)`: nothing is evaluated under `NDEBUG`. -/
def c_assert (ndebug : Bool) (line : Nat) (cond : Outcome Bool) : Outcome Unit :=
  if ndebug then Outcome.ok ()
  else
    match cond with
    | Outcome.ok true => Outcome.ok ()
    | Outcome.ok false => Outcome.assert_failed line
    | Outcome.assert_failed l => Outcome.assert_failed l
    | Outcome.undefined_behaviour => Outcome.undefined_behaviour
    | Outcome.out_of_fuel => Outcome.out_of_fuel

/-- The all-zero `proxy_data`. -/
def proxy_data.zero : proxy_data :=
  { logger := none, paths := { raw := [] }, exit_event := none,
    connect_overlapped := { hEvent := none },
    connections_start := none, connections_end := none }

/-- The all-zero `connection_list_entry`. -/
def connection_list_entry.zero : connection_list_entry :=
  { previous := none, next := none }

/-- The assignment `proxy->connections_start = v`. -/
def set_connections_start (proxy : Ptr) (v : Option Ptr) (s : Process) : Outcome Process := do
  let d ← s.load_proxy proxy
  pure (s.store proxy (Block.proxy { d with connections_start := v }))

/-- The assignment `proxy->connections_end = v`. -/
def set_connections_end (proxy : Ptr) (v : Option Ptr) (s : Process) : Outcome Process := do
  let d ← s.load_proxy proxy
  pure (s.store proxy (Block.proxy { d with connections_end := v }))

/-- The assignment `e->previous = v`. -/
def set_previous (e : Option Ptr) (v : Option Ptr) (s : Process) : Outcome Process := do
  let r ← s.load_entry e
  match e with
  | none => Outcome.undefined_behaviour
  | some a => pure (s.store a (Block.entry { r with previous := v }))

/-- The assignment `e->next = v`. -/
def set_next (e : Option Ptr) (v : Option Ptr) (s : Process) : Outcome Process := do
  let r ← s.load_entry e
  match e with
  | none => Outcome.undefined_behaviour
  | some a => pure (s.store a (Block.entry { r with next := v }))

/-! ## The four functions of `proxy.c` -/

/-- What `create_proxy` hands back: the `BOOL` and what was written to `*out_proxy`. -/
structure create_result where
  ret : Bool
  out_proxy : Option Ptr
  state : Process

/-- The function `create_proxy` (lines 21-51). `heap_choice` and `event_choice` are what
`HeapAlloc` and `CreateEvent` return. -/
def create_proxy (heap_choice : Option Ptr) (event_choice : Option Nat)
    (logger : Option Ptr) (paths : connection_paths) (exit_event : HANDLE)
    (s : Process) : Outcome create_result :=
  match HeapAlloc heap_choice (Block.proxy proxy_data.zero) s with
  | (none, s) => pure { ret := false, out_proxy := none, state := s }
  | (some proxy, s) => do
    let d ← s.load_proxy proxy
    let s := s.store proxy (Block.proxy { d with logger := logger })
    let d ← s.load_proxy proxy
    let s := s.store proxy (Block.proxy { d with paths := paths })
    let d ← s.load_proxy proxy
    let s := s.store proxy (Block.proxy { d with exit_event := exit_event })
    let (h, s) := CreateEvent event_choice true false s
    let d ← s.load_proxy proxy
    let s := s.store proxy (Block.proxy { d with connect_overlapped := { hEvent := h } })
    let d ← s.load_proxy proxy
    if d.connect_overlapped.hEvent.isNone then do
      let s ← HeapFree proxy s
      pure { ret := false, out_proxy := none, state := s }
    else
      pure { ret := true, out_proxy := some proxy, state := s }

/-- The `while (entry)` loop of `destroy_proxy` (lines 66-73); one unit of fuel per iteration. -/
def destroy_loop : Nat → Option Ptr → Process → Outcome Process
  | _, none, s => Outcome.ok s
  | 0, some _, _ => Outcome.out_of_fuel
  | fuel + 1, some entry, s => do
    let r ← s.load_entry (some entry)
    let next := r.next
    let s ← HeapFree entry s
    destroy_loop fuel next s

/-- The function `destroy_proxy` (lines 53-80). -/
def destroy_proxy (ndebug : Bool) (fuel : Nat) (proxy : Ptr) (s : Process) : Outcome Process := do
  let d ← s.load_proxy proxy
  c_assert ndebug 62
    (if d.connections_start.isNone then pure true
     else do
      let r ← s.load_entry d.connections_start
      pure r.previous.isNone)
  c_assert ndebug 63
    (if d.connections_end.isNone then pure true
     else do
      let r ← s.load_entry d.connections_end
      pure r.next.isNone)
  let s ← destroy_loop fuel d.connections_start s
  let d ← s.load_proxy proxy
  let s := CloseHandle d.connect_overlapped.hEvent s
  HeapFree proxy s

/-- What `allocate_connection` hands back: the `BOOL` and what was written to
`*out_connection`. -/
structure allocate_result where
  ret : Bool
  out_connection : Option Ptr
  state : Process

/-- The function `allocate_connection` (lines 83-117). `off` is
`offsetof(connection_list_entry, connection)`, `heap_choice` what `HeapAlloc` returns. -/
def allocate_connection (ndebug : Bool) (off : Nat) (heap_choice : Option Ptr)
    (proxy : Ptr) (s : Process) : Outcome allocate_result := do
  let _ ← s.load_proxy proxy
  match HeapAlloc heap_choice (Block.entry connection_list_entry.zero) s with
  | (none, s) => pure { ret := false, out_connection := none, state := s }
  | (some entry, s) => do
    let d ← s.load_proxy proxy
    let s ←
      if d.connections_end.isNone then do
        c_assert ndebug 101 (pure d.connections_start.isNone)
        let s ← set_connections_start proxy (some entry) s
        set_connections_end proxy (some entry) s
      else do
        c_assert ndebug 107 (pure d.connections_start.isSome)
        c_assert ndebug 108 (do
          let r ← s.load_entry d.connections_end
          pure r.next.isNone)
        let s ← set_previous (some entry) d.connections_end s
        let d ← s.load_proxy proxy
        set_next d.connections_end (some entry) s
    pure { ret := true, out_connection := some (entry + off), state := s }

/-- Lines 126-127: `if (proxy->connections_start == entry) proxy->connections_start =
entry->next;`. -/
def unlink_from_start (proxy entry : Ptr) (s : Process) : Outcome Process := do
  let d ← s.load_proxy proxy
  if d.connections_start = some entry then do
    let r ← s.load_entry (some entry)
    set_connections_start proxy r.next s
  else pure s

/-- Lines 128-129: `if (proxy->connections_end == entry) proxy->connections_end =
entry->previous;`. -/
def unlink_from_end (proxy entry : Ptr) (s : Process) : Outcome Process := do
  let d ← s.load_proxy proxy
  if d.connections_end = some entry then do
    let r ← s.load_entry (some entry)
    set_connections_end proxy r.previous s
  else pure s

/-- Lines 131-132: `if (entry->previous) entry->previous->next = entry->next;`. -/
def relink_previous (entry : Ptr) (s : Process) : Outcome Process := do
  let r ← s.load_entry (some entry)
  if r.previous.isSome then set_next r.previous r.next s
  else pure s

/-- Lines 133-134: `if (entry->next) entry->next->previous = entry->previous;`. -/
def relink_next (entry : Ptr) (s : Process) : Outcome Process := do
  let r ← s.load_entry (some entry)
  if r.next.isSome then set_previous r.next r.previous s
  else pure s

/-- The function `deallocate_connection` (lines 120-141); `entry` is the macro of line 122. -/
def deallocate_connection (off : Nat) (proxy : Ptr) (connection : Ptr) (s : Process) :
    Outcome Process := do
  let entry : Ptr := connection - off
  let _ ← s.load_proxy proxy
  let s ← unlink_from_start proxy entry s
  let s ← unlink_from_end proxy entry s
  let s ← relink_previous entry s
  let s ← relink_next entry s
  HeapFree entry s

/-! ## Call sequences -/

/-- One registry call made by the accept loop. -/
inductive RegistryCall where
  | allocate (heap_choice : Option Ptr)
  | deallocate (connection : Ptr)
  deriving DecidableEq, Repr

/-- Perform one registry call on the instance at `proxy`. -/
def RegistryCall.run (ndebug : Bool) (off : Nat) (proxy : Ptr) (s : Process) :
    RegistryCall → Outcome Process
  | RegistryCall.allocate c => do
    let r ← allocate_connection ndebug off c proxy s
    pure r.state
  | RegistryCall.deallocate c => deallocate_connection off proxy c s

/-- Perform a sequence of registry calls, left to right. -/
def run_calls (ndebug : Bool) (off : Nat) (proxy : Ptr) :
    List RegistryCall → Process → Outcome Process
  | [], s => Outcome.ok s
  | c :: cs, s => do
    let s ← c.run ndebug off proxy s
    run_calls ndebug off proxy cs s

/-! ## Specification vocabulary -/

/-- The record living at `a`, when `a` is the address of a live connection record. -/
def Process.entry_at (s : Process) (a : Ptr) : Option connection_list_entry :=
  match s.heap a with
  | some (Block.entry e) => some e
  | _ => none

/-- Following `next` from `p` visits the records of `l`, in that order, and then reaches null. -/
def next_walk (s : Process) : Option Ptr → List Ptr → Prop
  | p, [] => p = none
  | p, a :: l => p = some a ∧ ∃ e, s.entry_at a = some e ∧ next_walk s e.next l

/-- Invariant 1: the head, when present, has no predecessor. -/
def head_has_no_predecessor (s : Process) (d : proxy_data) : Prop :=
  ∀ a, d.connections_start = some a → ∃ e, s.entry_at a = some e ∧ e.previous = none

/-- Invariant 2: the tail, when present, has no successor. -/
def tail_has_no_successor (s : Process) (d : proxy_data) : Prop :=
  ∀ a, d.connections_end = some a → ∃ e, s.entry_at a = some e ∧ e.next = none

/-- Invariant 3: the `next` walk from the head visits exactly the allocated records, each once,
and ends at the tail. -/
def walk_covers_allocated (s : Process) (d : proxy_data) : Prop :=
  ∃ l, next_walk s d.connections_start l ∧ l.Nodup ∧
    (∀ a, a ∈ l ↔ (s.entry_at a).isSome) ∧ l.getLast? = d.connections_end

/-- The three list invariants of the instance at `proxy`. -/
def list_invariants (s : Process) (proxy : Ptr) : Prop :=
  ∃ d, s.heap proxy = some (Block.proxy d) ∧
    head_has_no_predecessor s d ∧ tail_has_no_successor s d ∧ walk_covers_allocated s d

/-- The block with its `next` link replaced (other blocks are left alone). -/
def Block.with_next (v : Option Ptr) : Block → Block
  | Block.entry e => Block.entry { e with next := v }
  | b => b

/-- The block with its `previous` link replaced (other blocks are left alone). -/
def Block.with_previous (v : Option Ptr) : Block → Block
  | Block.entry e => Block.entry { e with previous := v }
  | b => b

/-- The records of `l` form a doubly linked chain entered from `prev`: the `previous` link of each
record is the record before it (`prev` for the first one) and its `next` link is the record after
it (null for the last one). -/
def linked_chain (s : Process) : Option Ptr → List Ptr → Prop
  | _, [] => True
  | prev, a :: l =>
    s.entry_at a = some { previous := prev, next := l.head? } ∧ linked_chain s (some a) l

/-- Every `next` link is answered by the `previous` link of the record it points to. -/
def previous_mirrors_next (s : Process) : Prop :=
  ∀ a e b, s.entry_at a = some e → e.next = some b →
    ∃ e2, s.entry_at b = some e2 ∧ e2.previous = some a

/-- The handles passed to `CloseHandle`, in call order. -/
def closed_handles : List Call → List HANDLE
  | [] => []
  | Call.CloseHandle h :: cs => h :: closed_handles cs
  | Call.HeapFree _ :: cs => closed_handles cs

/-- From `s` to `s2` no event object was touched (the handle table is the same, so nothing was
signalled, reset or closed), no `CloseHandle` call was made, and the instance at `proxy`, when
there is one, still holds the same `exit_event` and the same connect event. -/
def events_kept (proxy : Ptr) (s s2 : Process) : Prop :=
  s2.handles = s.handles ∧ closed_handles s2.calls = closed_handles s.calls ∧
  ∀ d, s.heap proxy = some (Block.proxy d) →
    ∃ d2, s2.heap proxy = some (Block.proxy d2) ∧ d2.exit_event = d.exit_event ∧
      d2.connect_overlapped = d.connect_overlapped

/-! ## Sample states -/

/-- The proxy object of the samples: event handle 7, exit event 9. -/
def sample_proxy (head tail : Option Ptr) : proxy_data :=
  { logger := none, paths := { raw := [] }, exit_event := some 9,
    connect_overlapped := { hEvent := some 7 },
    connections_start := head, connections_end := tail }

/-- The handle table of the samples: the connect event is handle 7. -/
def sample_handles : Nat → Option event_object :=
  fun k => if k = 7 then some { manual_reset := true, signaled := false } else none

/-- An instance at address 100 with the well-formed list `[1, 2]`. -/
def two_record_instance : Process :=
  { heap := fun q =>
      if q = 100 then some (Block.proxy (sample_proxy (some 1) (some 2)))
      else if q = 1 then some (Block.entry { previous := none, next := some 2 })
      else if q = 2 then some (Block.entry { previous := some 1, next := none })
      else none,
    handles := sample_handles, calls := [] }

/-- As `two_record_instance`, but record 2 does not point back at record 1. -/
def stale_previous_instance : Process :=
  { heap := fun q =>
      if q = 100 then some (Block.proxy (sample_proxy (some 1) (some 2)))
      else if q = 1 then some (Block.entry { previous := none, next := some 2 })
      else if q = 2 then some (Block.entry { previous := none, next := none })
      else none,
    handles := sample_handles, calls := [] }

/-- An instance at address 100 whose head is record 1 and whose tail pointer is null. -/
def head_without_tail_instance : Process :=
  { heap := fun q =>
      if q = 100 then some (Block.proxy (sample_proxy (some 1) none))
      else if q = 1 then some (Block.entry { previous := none, next := none })
      else none,
    handles := sample_handles, calls := [] }

/-- An instance at address 100 whose tail pointer is record 1 although record 1 is followed by
record 2. -/
def tail_with_successor_instance : Process :=
  { heap := fun q =>
      if q = 100 then some (Block.proxy (sample_proxy (some 1) (some 1)))
      else if q = 1 then some (Block.entry { previous := none, next := some 2 })
      else if q = 2 then some (Block.entry { previous := some 1, next := none })
      else none,
    handles := sample_handles, calls := [] }

/-- An instance at address 100 with an empty list. -/
def empty_instance : Process :=
  { heap := fun q => if q = 100 then some (Block.proxy (sample_proxy none none)) else none,
    handles := sample_handles, calls := [] }

/-- As `two_record_instance`, with the exit event (handle 9) live next to the connect event
(handle 7). -/
def running_instance : Process :=
  { heap := fun q =>
      if q = 100 then some (Block.proxy (sample_proxy (some 1) (some 2)))
      else if q = 1 then some (Block.entry { previous := none, next := some 2 })
      else if q = 2 then some (Block.entry { previous := some 1, next := none })
      else none,
    handles := fun k =>
      if k = 7 then some { manual_reset := true, signaled := false }
      else if k = 9 then some { manual_reset := true, signaled := false }
      else none,
    calls := [] }

/-! ## Evaluation lemmas -/

@[simp]
theorem Outcome.ok_bind {α β : Type} (a : α) (f : α → Outcome β) :
    (Outcome.ok a >>= f) = f a := rfl

@[simp]
theorem Outcome.pure_eq {α : Type} (a : α) : (pure a : Outcome α) = Outcome.ok a := rfl

@[simp]
theorem store_heap (s : Process) (p q : Ptr) (b : Block) :
    (s.store p b).heap q = if q = p then some b else s.heap q := rfl

@[simp]
theorem store_handles (s : Process) (p : Ptr) (b : Block) :
    (s.store p b).handles = s.handles := rfl

@[simp]
theorem store_calls (s : Process) (p : Ptr) (b : Block) :
    (s.store p b).calls = s.calls := rfl

@[simp]
theorem Outcome.assert_failed_bind {α β : Type} (l : Nat) (f : α → Outcome β) :
    ((Outcome.assert_failed l : Outcome α) >>= f) = Outcome.assert_failed l := rfl

@[simp]
theorem Outcome.undefined_bind {α β : Type} (f : α → Outcome β) :
    ((Outcome.undefined_behaviour : Outcome α) >>= f) = Outcome.undefined_behaviour := rfl

@[simp]
theorem load_proxy_store_same (s : Process) (p : Ptr) (d : proxy_data) :
    (s.store p (Block.proxy d)).load_proxy p = Outcome.ok d := by
  simp [Process.load_proxy]

theorem load_proxy_of_heap {s : Process} {p : Ptr} {d : proxy_data}
    (h : s.heap p = some (Block.proxy d)) : s.load_proxy p = Outcome.ok d := by
  simp [Process.load_proxy, h]

theorem entry_at_eq_some {s : Process} {a : Ptr} {e : connection_list_entry} :
    s.entry_at a = some e ↔ s.heap a = some (Block.entry e) := by
  unfold Process.entry_at
  split
  · rename_i e2 h
    rw [h]
    simp
  · rename_i h
    constructor
    · intro h2
      cases h2
    · intro h2
      exact absurd h2 (h e)

theorem load_entry_of_heap {s : Process} {a : Ptr} {e : connection_list_entry}
    (h : s.heap a = some (Block.entry e)) : s.load_entry (some a) = Outcome.ok e := by
  simp [Process.load_entry, h]

theorem walk_nil_of_last_none {s : Process} {p : Option Ptr} {l : List Ptr}
    (hw : next_walk s p l) (hl : l.getLast? = none) : p = none := by
  cases l with
  | nil => exact hw
  | cons a l => simp at hl

theorem walk_head_live {s : Process} {p : Option Ptr} {l : List Ptr}
    (hw : next_walk s p l) (hl : l ≠ []) :
    ∃ a e, p = some a ∧ s.heap a = some (Block.entry e) := by
  cases l with
  | nil => exact absurd rfl hl
  | cons a l =>
    obtain ⟨hp, e, he, -⟩ := hw
    exact ⟨a, e, hp, entry_at_eq_some.mp he⟩


theorem store_store_same (s : Process) (p : Ptr) (b1 b2 : Block) :
    (s.store p b1).store p b2 = s.store p b2 := by
  unfold Process.store
  congr 1
  funext q
  by_cases h : q = p <;> simp [h]

theorem set_connections_start_eval {s : Process} {p : Ptr} {d : proxy_data} (v : Option Ptr)
    (hd : s.heap p = some (Block.proxy d)) :
    set_connections_start p v s
      = Outcome.ok (s.store p (Block.proxy { d with connections_start := v })) := by
  simp [set_connections_start, load_proxy_of_heap hd]

theorem set_connections_end_eval {s : Process} {p : Ptr} {d : proxy_data} (v : Option Ptr)
    (hd : s.heap p = some (Block.proxy d)) :
    set_connections_end p v s
      = Outcome.ok (s.store p (Block.proxy { d with connections_end := v })) := by
  simp [set_connections_end, load_proxy_of_heap hd]

theorem set_next_eval {s : Process} {a : Ptr} {r : connection_list_entry} (v : Option Ptr)
    (hr : s.heap a = some (Block.entry r)) :
    set_next (some a) v s = Outcome.ok (s.store a (Block.entry { r with next := v })) := by
  simp [set_next, load_entry_of_heap hr]

theorem set_previous_eval {s : Process} {a : Ptr} {r : connection_list_entry} (v : Option Ptr)
    (hr : s.heap a = some (Block.entry r)) :
    set_previous (some a) v s = Outcome.ok (s.store a (Block.entry { r with previous := v })) := by
  simp [set_previous, load_entry_of_heap hr]

theorem allocate_empty_eval (ndebug : Bool) (off : Nat) {proxy entry : Ptr} {s : Process}
    {d : proxy_data} (hd : s.heap proxy = some (Block.proxy d)) (hfresh : s.heap entry = none)
    (hend : d.connections_end = none) (hstart : d.connections_start = none) :
    allocate_connection ndebug off (some entry) proxy s = Outcome.ok
      { ret := true, out_connection := some (entry + off),
        state := (s.store entry (Block.entry connection_list_entry.zero)).store proxy
          (Block.proxy { d with connections_start := some entry,
                                connections_end := some entry }) } := by
  have hne : proxy ≠ entry := by
    intro h
    rw [h, hfresh] at hd
    cases hd
  have hd1 : (s.store entry (Block.entry connection_list_entry.zero)).heap proxy
      = some (Block.proxy d) := by simp [hne, hd]
  simp [allocate_connection, HeapAlloc, load_proxy_of_heap hd, load_proxy_of_heap hd1, hend, hstart,
    c_assert, set_connections_start, set_connections_end, Process.load_proxy, store_store_same,
    hne, hd]

theorem allocate_append_eval (ndebug : Bool) (off : Nat) {proxy entry t : Ptr} {s : Process}
    {d : proxy_data} {r : connection_list_entry}
    (hd : s.heap proxy = some (Block.proxy d)) (hfresh : s.heap entry = none)
    (hend : d.connections_end = some t) (hstart : d.connections_start.isSome)
    (ht : s.heap t = some (Block.entry r)) (hnext : r.next = none) :
    allocate_connection ndebug off (some entry) proxy s = Outcome.ok
      { ret := true, out_connection := some (entry + off),
        state := (s.store entry (Block.entry { previous := some t, next := none })).store t
          (Block.entry { r with next := some entry }) } := by
  have hne : proxy ≠ entry := by
    intro h
    rw [h, hfresh] at hd
    cases hd
  have hte : t ≠ entry := by
    intro h
    rw [h, hfresh] at ht
    cases ht
  have hd1 : (s.store entry (Block.entry connection_list_entry.zero)).heap proxy
      = some (Block.proxy d) := by simp [hne, hd]
  simp [allocate_connection, HeapAlloc, load_proxy_of_heap hd, load_proxy_of_heap hd1, hend, hstart,
    c_assert, set_previous, set_next, Process.load_proxy, Process.load_entry, store_store_same,
    hte, ht, hnext, hne, hd, connection_list_entry.zero]




theorem unlink_from_start_eval {proxy x : Ptr} {s : Process} {d : proxy_data}
    {r : connection_list_entry}
    (hd : s.heap proxy = some (Block.proxy d)) (hx : s.heap x = some (Block.entry r)) :
    ∃ s1, unlink_from_start proxy x s = Outcome.ok s1 ∧
      s1.handles = s.handles ∧ s1.calls = s.calls ∧
      ∀ q, s1.heap q =
        if q = proxy then
          some (Block.proxy { d with
            connections_start := if d.connections_start = some x then r.next
              else d.connections_start })
        else s.heap q := by
  by_cases h1 : d.connections_start = some x
  · refine ⟨s.store proxy (Block.proxy { d with connections_start := r.next }),
      ?_, rfl, rfl, ?_⟩
    · simp only [unlink_from_start, load_proxy_of_heap hd, Outcome.ok_bind, h1, if_true,
        load_entry_of_heap hx]
      exact set_connections_start_eval _ hd
    · intro q
      simp [h1]
  · refine ⟨s, ?_, rfl, rfl, ?_⟩
    · simp [unlink_from_start, load_proxy_of_heap hd, h1]
    · intro q
      by_cases hq : q = proxy
      · simp [hq, hd, h1]
      · simp [hq]

theorem unlink_from_end_eval {proxy x : Ptr} {s : Process} {d : proxy_data}
    {r : connection_list_entry}
    (hd : s.heap proxy = some (Block.proxy d)) (hx : s.heap x = some (Block.entry r)) :
    ∃ s1, unlink_from_end proxy x s = Outcome.ok s1 ∧
      s1.handles = s.handles ∧ s1.calls = s.calls ∧
      ∀ q, s1.heap q =
        if q = proxy then
          some (Block.proxy { d with
            connections_end := if d.connections_end = some x then r.previous
              else d.connections_end })
        else s.heap q := by
  by_cases h1 : d.connections_end = some x
  · refine ⟨s.store proxy (Block.proxy { d with connections_end := r.previous }),
      ?_, rfl, rfl, ?_⟩
    · simp only [unlink_from_end, load_proxy_of_heap hd, Outcome.ok_bind, h1, if_true,
        load_entry_of_heap hx]
      exact set_connections_end_eval _ hd
    · intro q
      simp [h1]
  · refine ⟨s, ?_, rfl, rfl, ?_⟩
    · simp [unlink_from_end, load_proxy_of_heap hd, h1]
    · intro q
      by_cases hq : q = proxy
      · simp [hq, hd, h1]
      · simp [hq]

theorem relink_previous_eval {x : Ptr} {s : Process} {r : connection_list_entry}
    (hx : s.heap x = some (Block.entry r))
    (hpx : ∀ a, r.previous = some a → ∃ ra, s.heap a = some (Block.entry ra)) :
    ∃ s1, relink_previous x s = Outcome.ok s1 ∧
      s1.handles = s.handles ∧ s1.calls = s.calls ∧
      ∀ q, s1.heap q =
        if r.previous = some q then (s.heap q).map (Block.with_next r.next) else s.heap q := by
  cases hp : r.previous with
  | none =>
    refine ⟨s, ?_, rfl, rfl, ?_⟩
    · simp [relink_previous, load_entry_of_heap hx, hp]
    · intro q
      simp
  | some a =>
    obtain ⟨ra, hra⟩ := hpx a hp
    refine ⟨s.store a (Block.entry { ra with next := r.next }), ?_, rfl, rfl, ?_⟩
    · simp only [relink_previous, load_entry_of_heap hx, Outcome.ok_bind, hp, Option.isSome_some,
        if_true]
      exact set_next_eval _ hra
    · intro q
      by_cases hq : q = a
      · simp [hq, hra, Block.with_next]
      · simp [hq, Ne.symm hq]

theorem relink_next_eval {x : Ptr} {s : Process} {r : connection_list_entry}
    (hx : s.heap x = some (Block.entry r))
    (hnx : ∀ b, r.next = some b → ∃ rb, s.heap b = some (Block.entry rb)) :
    ∃ s1, relink_next x s = Outcome.ok s1 ∧
      s1.handles = s.handles ∧ s1.calls = s.calls ∧
      ∀ q, s1.heap q =
        if r.next = some q then (s.heap q).map (Block.with_previous r.previous)
        else s.heap q := by
  cases hp : r.next with
  | none =>
    refine ⟨s, ?_, rfl, rfl, ?_⟩
    · simp [relink_next, load_entry_of_heap hx, hp]
    · intro q
      simp
  | some b =>
    obtain ⟨rb, hrb⟩ := hnx b hp
    refine ⟨s.store b (Block.entry { rb with previous := r.previous }), ?_, rfl, rfl, ?_⟩
    · simp only [relink_next, load_entry_of_heap hx, Outcome.ok_bind, hp, Option.isSome_some,
        if_true]
      exact set_previous_eval _ hrb
    · intro q
      by_cases hq : q = b
      · simp [hq, hrb, Block.with_previous]
      · simp [hq, Ne.symm hq]



theorem deallocate_eval (off : Nat) {proxy x : Ptr} {s : Process} {d : proxy_data}
    {r : connection_list_entry}
    (hd : s.heap proxy = some (Block.proxy d)) (hx : s.heap x = some (Block.entry r))
    (hpx : ∀ a, r.previous = some a → ∃ ra, s.heap a = some (Block.entry ra))
    (hnx : ∀ b, r.next = some b → ∃ rb, s.heap b = some (Block.entry rb)) :
    ∃ s2, deallocate_connection off proxy (x + off) s = Outcome.ok s2 ∧
      s2.handles = s.handles ∧ s2.calls = s.calls ++ [Call.HeapFree x] ∧
      ∀ q, s2.heap q =
        if q = x then none
        else if q = proxy then
          some (Block.proxy { d with
            connections_start := if d.connections_start = some x then r.next
              else d.connections_start,
            connections_end := if d.connections_end = some x then r.previous
              else d.connections_end })
        else
          (if r.next = some q then Option.map (Block.with_previous r.previous) else id)
            ((if r.previous = some q then Option.map (Block.with_next r.next) else id)
              (s.heap q)) := by
  have hxp : x ≠ proxy := by
    intro h
    rw [h, hd] at hx
    cases hx
  have hentry_ne : ∀ a ra, s.heap a = some (Block.entry ra) → a ≠ proxy := by
    intro a ra ha h
    rw [h, hd] at ha
    cases ha
  obtain ⟨s1, e1, hh1, hc1, hp1⟩ := unlink_from_start_eval hd hx
  have hd1 := hp1 proxy
  rw [if_pos rfl] at hd1
  have hx1 : s1.heap x = some (Block.entry r) := by rw [hp1, if_neg hxp, hx]
  obtain ⟨s2, e2, hh2, hc2, hp2⟩ := unlink_from_end_eval hd1 hx1
  have hd2 := hp2 proxy
  rw [if_pos rfl] at hd2
  have hframe : ∀ q, q ≠ proxy → s2.heap q = s.heap q := by
    intro q hq
    rw [hp2, if_neg hq, hp1, if_neg hq]
  have hx2 : s2.heap x = some (Block.entry r) := by rw [hframe x hxp, hx]
  have hpx2 : ∀ a, r.previous = some a → ∃ ra, s2.heap a = some (Block.entry ra) := by
    intro a ha
    obtain ⟨ra, hra⟩ := hpx a ha
    exact ⟨ra, by rw [hframe a (hentry_ne a ra hra), hra]⟩
  obtain ⟨s3, e3, hh3, hc3, hp3⟩ := relink_previous_eval hx2 hpx2
  have hx3 : s3.heap x = some (Block.entry r) := by
    rw [hp3]
    split
    · rw [hx2]; rfl
    · exact hx2
  have hnx3 : ∀ b, r.next = some b → ∃ rb, s3.heap b = some (Block.entry rb) := by
    intro b hb
    obtain ⟨rb, hrb⟩ := hnx b hb
    have hb2 : s2.heap b = some (Block.entry rb) := by
      rw [hframe b (hentry_ne b rb hrb), hrb]
    rw [hp3]
    split
    · rw [hb2]; exact ⟨_, rfl⟩
    · exact ⟨rb, hb2⟩
  obtain ⟨s4, e4, hh4, hc4, hp4⟩ := relink_next_eval hx3 hnx3
  have hx4 : ∃ b4, s4.heap x = some b4 := by
    rw [hp4]
    split
    · rw [hx3]; exact ⟨_, rfl⟩
    · exact ⟨_, hx3⟩
  obtain ⟨b4, hb4⟩ := hx4
  refine ⟨{ s4 with heap := (fun q => if q = x then none else s4.heap q),
                    calls := s4.calls ++ [Call.HeapFree x] }, ?_, ?_, ?_, ?_⟩
  · simp only [deallocate_connection, Nat.add_sub_cancel, load_proxy_of_heap hd, Outcome.ok_bind,
      e1, e2, e3, e4, HeapFree, hb4]
  · show s4.handles = s.handles
    rw [hh4, hh3, hh2, hh1]
  · show s4.calls ++ [Call.HeapFree x] = s.calls ++ [Call.HeapFree x]
    rw [hc4, hc3, hc2, hc1]
  · intro q
    show (if q = x then none else s4.heap q) = _
    by_cases hq : q = x
    · simp [hq]
    · rw [if_neg hq, if_neg hq, hp4, hp3]
      by_cases hq2 : q = proxy
      · have hn1 : r.next ≠ some q := by
          intro h
          obtain ⟨rb, hrb⟩ := hnx q h
          exact hentry_ne q rb hrb hq2
        have hn2 : r.previous ≠ some q := by
          intro h
          obtain ⟨rb, hrb⟩ := hpx q h
          exact hentry_ne q rb hrb hq2
        rw [if_neg hn1, if_neg hn2, if_pos hq2, hq2, hd2]
      · rw [if_neg hq2, hframe q hq2]
        by_cases h1 : r.next = some q <;> by_cases h2 : r.previous = some q <;> simp [h1, h2]

theorem invariants_give_tail {s : Process} {p : Ptr} {d : proxy_data}
    (h : list_invariants s p) (hd : s.load_proxy p = Outcome.ok d) :
    tail_has_no_successor s d := by
  obtain ⟨d2, hd2, -, h2, -⟩ := h
  rw [load_proxy_of_heap hd2] at hd
  cases hd
  exact h2

/-! ## Doubly linked chains -/

theorem walk_unique {s : Process} : ∀ (l1 l2 : List Ptr) (p : Option Ptr),
    next_walk s p l1 → next_walk s p l2 → l1 = l2 := by
  intro l1
  induction l1 with
  | nil =>
    intro l2 p h1 h2
    cases l2 with
    | nil => rfl
    | cons b l2 =>
      have h1p : p = none := h1
      obtain ⟨hp, -⟩ := h2
      rw [h1p] at hp
      cases hp
  | cons a l1 ih =>
    intro l2 p h1 h2
    obtain ⟨hp, e, he, hw⟩ := h1
    cases l2 with
    | nil =>
      have h2p : p = none := h2
      rw [h2p] at hp
      cases hp
    | cons b l2 =>
      obtain ⟨hp2, e2, he2, hw2⟩ := h2
      rw [hp] at hp2
      cases hp2
      rw [he] at he2
      cases he2
      rw [ih l2 e.next hw hw2]

theorem chain_of_walk {s : Process} (hm : previous_mirrors_next s) :
    ∀ (l : List Ptr) (p prev : Option Ptr), next_walk s p l →
      (∀ a, p = some a → ∃ e, s.entry_at a = some e ∧ e.previous = prev) →
      linked_chain s prev l ∧ p = l.head? := by
  intro l
  induction l with
  | nil =>
    intro p prev hw _
    exact ⟨trivial, hw⟩
  | cons a l ih =>
    intro p prev hw hp
    obtain ⟨hpa, e, he, hwl⟩ := hw
    obtain ⟨e1, he1, hprev⟩ := hp a hpa
    rw [he] at he1
    cases he1
    obtain ⟨hc, hn⟩ := ih e.next (some a) hwl (fun b hb => hm a e b he hb)
    refine ⟨⟨?_, hc⟩, by rw [hpa]; rfl⟩
    rw [he]
    cases e
    simp_all

theorem walk_of_chain {s : Process} : ∀ (l : List Ptr) (prev : Option Ptr),
    linked_chain s prev l → next_walk s l.head? l := by
  intro l
  induction l with
  | nil =>
    intro prev _
    show (none : Option Ptr) = none
    rfl
  | cons a l ih =>
    intro prev hc
    obtain ⟨ha, hl⟩ := hc
    exact ⟨rfl, _, ha, ih (some a) hl⟩

theorem chain_frame {s s2 : Process} : ∀ (l : List Ptr) (prev : Option Ptr),
    (∀ a, a ∈ l → s2.entry_at a = s.entry_at a) → linked_chain s prev l →
    linked_chain s2 prev l := by
  intro l
  induction l with
  | nil =>
    intro prev _ _
    trivial
  | cons a l ih =>
    intro prev hf hc
    obtain ⟨ha, hl⟩ := hc
    refine ⟨?_, ih (some a) (fun b hb => hf b (List.mem_cons_of_mem a hb)) hl⟩
    rw [hf a (List.mem_cons_self a l), ha]

theorem chain_next_mem {s : Process} {x : Ptr} {r : connection_list_entry}
    (hx : s.entry_at x = some r) : ∀ (l : List Ptr) (prev : Option Ptr),
    linked_chain s prev l → x ∈ l → ∀ b, r.next = some b → b ∈ l := by
  intro l
  induction l with
  | nil =>
    intro prev _ hmem
    cases hmem
  | cons a l ih =>
    intro prev hc hmem b hb
    obtain ⟨ha, hl⟩ := hc
    rcases List.mem_cons.mp hmem with h | h
    · subst h
      rw [hx] at ha
      cases ha
      exact List.mem_cons_of_mem _ (List.mem_of_mem_head? hb)
    · exact List.mem_cons_of_mem _ (ih (some a) hl h b hb)

theorem chain_previous_mem {s : Process} {x : Ptr} {r : connection_list_entry}
    (hx : s.entry_at x = some r) : ∀ (l : List Ptr) (prev : Option Ptr),
    linked_chain s prev l → x ∈ l →
    r.previous = prev ∨ ∃ a, a ∈ l ∧ r.previous = some a := by
  intro l
  induction l with
  | nil =>
    intro prev _ hmem
    cases hmem
  | cons a l ih =>
    intro prev hc hmem
    obtain ⟨ha, hl⟩ := hc
    rcases List.mem_cons.mp hmem with h | h
    · subst h
      rw [hx] at ha
      cases ha
      exact Or.inl rfl
    · rcases ih (some a) hl h with h2 | ⟨c, hc, h2⟩
      · exact Or.inr ⟨a, List.mem_cons_self a l, h2⟩
      · exact Or.inr ⟨c, List.mem_cons_of_mem a hc, h2⟩

theorem chain_tail {s : Process} : ∀ (l : List Ptr) (prev : Option Ptr) (t : Ptr),
    linked_chain s prev l → l.getLast? = some t →
    ∃ e, s.entry_at t = some e ∧ e.next = none := by
  intro l
  induction l with
  | nil =>
    intro prev t _ ht
    cases ht
  | cons a l ih =>
    intro prev t hc ht
    obtain ⟨ha, hl⟩ := hc
    cases l with
    | nil =>
      simp at ht
      subst ht
      exact ⟨_, ha, rfl⟩
    | cons b l =>
      rw [List.getLast?_cons_cons] at ht
      exact ih (some a) t hl ht

theorem chain_mirror {s : Process} : ∀ (l : List Ptr) (prev : Option Ptr),
    linked_chain s prev l → ∀ a e b, a ∈ l → s.entry_at a = some e → e.next = some b →
    ∃ e2, s.entry_at b = some e2 ∧ e2.previous = some a := by
  intro l
  induction l with
  | nil =>
    intro prev _ a e b hmem
    cases hmem
  | cons c l ih =>
    intro prev hc a e b hmem he hb
    obtain ⟨ha, hl⟩ := hc
    rcases List.mem_cons.mp hmem with h | h
    · subst h
      rw [he] at ha
      cases ha
      cases l with
      | nil => cases hb
      | cons z zs =>
        simp at hb
        subst hb
        exact ⟨_, hl.1, rfl⟩
    · exact ih (some c) hl a e b h he hb



theorem chain_erase {s s2 : Process} {x : Ptr} {r : connection_list_entry}
    (hx : s.entry_at x = some r)
    (hE : ∀ q, q ≠ x → s2.entry_at q =
      (if r.next = some q then Option.map (fun e => { e with previous := r.previous }) else id)
        ((if r.previous = some q then Option.map (fun e => { e with next := r.next }) else id)
          (s.entry_at q))) :
    ∀ (l : List Ptr) (prev : Option Ptr), linked_chain s prev l → l.Nodup → x ∈ l →
      (∀ a, prev = some a → a ∉ l) → linked_chain s2 prev (l.erase x) := by
  intro l
  induction l with
  | nil =>
    intro prev _ _ hmem
    cases hmem
  | cons y ys ih =>
    intro prev hc hnd hmem hprev
    obtain ⟨hy, hys⟩ := hc
    obtain ⟨hynot, hysnd⟩ := List.nodup_cons.mp hnd
    by_cases hyx : y = x
    · subst hyx
      rw [List.erase_cons_head]
      rw [hx] at hy
      cases hy
      cases ys with
      | nil => trivial
      | cons z zs =>
        obtain ⟨hz, hzs⟩ := hys
        obtain ⟨hznot, hzsnd⟩ := List.nodup_cons.mp hysnd
        have hzy : z ≠ y := fun h => hynot (by rw [h]; exact List.mem_cons_self _ _)
        have hpz : prev ≠ some z := fun h =>
          hprev z h (List.mem_cons_of_mem _ (List.mem_cons_self _ _))
        refine ⟨?_, ?_⟩
        · rw [hE z hzy, hz]
          simp [hpz]
        · refine chain_frame zs (some z) ?_ hzs
          intro q hq
          have hqy : q ≠ y := fun h =>
            hynot (by rw [← h]; exact List.mem_cons_of_mem _ hq)
          have hqz : z ≠ q := fun h => hznot (by rw [h]; exact hq)
          have hpq : prev ≠ some q := fun h =>
            hprev q h (List.mem_cons_of_mem _ (List.mem_cons_of_mem _ hq))
          rw [hE q hqy]
          simp [hqz, hpq]
    · have hxys : x ∈ ys := by
        rcases List.mem_cons.mp hmem with h | h
        · exact absurd h.symm hyx
        · exact h
      have herase : (y :: ys).erase x = y :: ys.erase x := by
        rw [List.erase_cons_tail]
        simpa using hyx
      rw [herase]
      refine ⟨?_, ih (some y) hys hysnd hxys (fun a ha => by cases ha; exact hynot)⟩
      have hnext : r.next ≠ some y := fun h =>
        hynot (chain_next_mem hx ys (some y) hys hxys y h)
      rw [hE y hyx, if_neg hnext, hy]
      cases ys with
      | nil => cases hxys
      | cons z zs =>
        obtain ⟨hz, hzs⟩ := hys
        by_cases hzx : z = x
        · subst hzx
          rw [hx] at hz
          cases hz
          simp
        · have hxzs : x ∈ zs := by
            rcases List.mem_cons.mp hxys with h | h
            · exact absurd h.symm hzx
            · exact h
          have hprev_y : r.previous ≠ some y := by
            intro h
            rcases chain_previous_mem hx zs (some z) hzs hxzs with h2 | ⟨c, hc, h2⟩
            · rw [h] at h2
              cases h2
              exact hynot (List.mem_cons_self _ _)
            · rw [h] at h2
              cases h2
              exact hynot (List.mem_cons_of_mem _ hc)
          have herase2 : (z :: zs).erase x = z :: zs.erase x := by
            rw [List.erase_cons_tail]
            simpa using hzx
          rw [herase2]
          simp [hprev_y]

theorem last_cons_or (a : Ptr) (l : List Ptr) :
    (a :: l).getLast? = (l.getLast?).or (some a) := by
  rw [List.getLast?_cons]
  cases l.getLast? <;> rfl

theorem chain_erase_last {s : Process} {x : Ptr} {r : connection_list_entry}
    (hx : s.entry_at x = some r) :
    ∀ (l : List Ptr) (prev : Option Ptr), linked_chain s prev l → l.Nodup → x ∈ l →
      ((l.erase x).getLast?).or prev
        = if l.getLast? = some x then r.previous else l.getLast? := by
  intro l
  induction l with
  | nil =>
    intro prev _ _ hmem
    cases hmem
  | cons y ys ih =>
    intro prev hc hnd hmem
    obtain ⟨hy, hys⟩ := hc
    obtain ⟨hynot, hysnd⟩ := List.nodup_cons.mp hnd
    by_cases hyx : y = x
    · subst hyx
      rw [List.erase_cons_head]
      rw [hx] at hy
      cases hy
      cases ys with
      | nil => simp
      | cons z zs =>
        have hne : (z :: zs).getLast? ≠ some y := fun h =>
          hynot (List.mem_of_mem_getLast? h)
        rw [List.getLast?_cons_cons, if_neg hne]
        rw [last_cons_or z zs]
        cases zs.getLast? <;> rfl
    · have hxys : x ∈ ys := by
        rcases List.mem_cons.mp hmem with h | h
        · exact absurd h.symm hyx
        · exact h
      have herase : (y :: ys).erase x = y :: ys.erase x := by
        rw [List.erase_cons_tail]
        simpa using hyx
      rw [herase, last_cons_or y (ys.erase x)]
      have h1 : ((ys.erase x).getLast?.or (some y)).or prev
          = (ys.erase x).getLast?.or (some y) := by
        cases (ys.erase x).getLast? <;> rfl
      rw [h1, ih (some y) hys hysnd hxys]
      cases ys with
      | nil => cases hxys
      | cons z zs => rw [List.getLast?_cons_cons]



theorem chain_head {s : Process} {l : List Ptr} {prev : Option Ptr} {a : Ptr}
    (hc : linked_chain s prev l) (ha : l.head? = some a) :
    ∃ e, s.entry_at a = some e ∧ e.previous = prev := by
  cases l with
  | nil => cases ha
  | cons y ys =>
    simp at ha
    subst ha
    exact ⟨_, hc.1, rfl⟩

theorem chain_erase_head {s : Process} {x : Ptr} {r : connection_list_entry}
    (hx : s.entry_at x = some r) {l : List Ptr} {prev : Option Ptr}
    (hc : linked_chain s prev l) (hmem : x ∈ l) :
    (l.erase x).head? = if l.head? = some x then r.next else l.head? := by
  cases l with
  | nil => cases hmem
  | cons y ys =>
    by_cases hyx : y = x
    · subst hyx
      have hy := hc.1
      rw [hx] at hy
      cases hy
      simp
    · have herase : (y :: ys).erase x = y :: ys.erase x := by
        rw [List.erase_cons_tail]
        simpa using hyx
      rw [herase]
      simp [hyx]

theorem entry_at_of_heap_none {s : Process} {a : Ptr} (h : s.heap a = none) :
    s.entry_at a = none := by
  simp [Process.entry_at, h]

theorem entry_at_of_heap_proxy {s : Process} {a : Ptr} {d : proxy_data}
    (h : s.heap a = some (Block.proxy d)) : s.entry_at a = none := by
  simp [Process.entry_at, h]

theorem invariants_of_chain {s : Process} {proxy : Ptr} {d : proxy_data} {l : List Ptr}
    (hd : s.heap proxy = some (Block.proxy d)) (hc : linked_chain s none l) (hnd : l.Nodup)
    (hcov : ∀ a, a ∈ l ↔ (s.entry_at a).isSome)
    (hstart : d.connections_start = l.head?) (hend : d.connections_end = l.getLast?) :
    list_invariants s proxy ∧ previous_mirrors_next s := by
  refine ⟨⟨d, hd, ?_, ?_, l, ?_, hnd, hcov, hend.symm⟩, ?_⟩
  · intro a ha
    exact chain_head hc (by rw [← hstart]; exact ha)
  · intro a ha
    exact chain_tail _ none a hc (by rw [← hend]; exact ha)
  · rw [hstart]
    exact walk_of_chain _ none hc
  · intro a e b hae hb
    have hmem : a ∈ l := (hcov a).mpr (by rw [hae]; rfl)
    exact chain_mirror _ none hc a e b hmem hae hb

/-! ## Sample states satisfy the invariants -/

theorem single_record_invariants {s : Process} {d : proxy_data}
    (hd : s.heap 100 = some (Block.proxy d))
    (hs : d.connections_start = some 1) (he : d.connections_end = some 1)
    (hall : ∀ a, s.entry_at a = if a = 1 then some { previous := none, next := none } else none) :
    list_invariants s 100 := by
  refine (invariants_of_chain (l := [1]) hd ⟨by rw [hall]; rfl, trivial⟩ (by simp) ?_
    (by rw [hs]; rfl) (by rw [he]; rfl)).1
  intro a
  rw [hall]
  by_cases h : a = 1 <;> simp [h]

theorem two_record_chain : list_invariants two_record_instance 100 ∧
    previous_mirrors_next two_record_instance := by
  refine invariants_of_chain (l := [1, 2]) (d := sample_proxy (some 1) (some 2)) rfl
    ⟨rfl, rfl, trivial⟩ (by decide) ?_ rfl rfl
  intro a
  by_cases h100 : a = 100 <;> by_cases h1 : a = 1 <;> by_cases h2 : a = 2 <;>
    simp [Process.entry_at, two_record_instance, h100, h1, h2]

/-! ## Creation, teardown and frame lemmas -/

theorem create_proxy_success_eval (p : Ptr) (h : Nat) (logger : Option Ptr)
    (paths : connection_paths) (exit_event : HANDLE) (s : Process) :
    ∃ r, create_proxy (some p) (some h) logger paths exit_event s = Outcome.ok r ∧
      r.ret = true ∧ r.out_proxy = some p ∧
      (∀ q, r.state.heap q = if q = p then some (Block.proxy
        { logger := logger, paths := paths, exit_event := exit_event,
          connect_overlapped := { hEvent := some h },
          connections_start := none, connections_end := none }) else s.heap q) ∧
      (∀ k, r.state.handles k =
        if k = h then some { manual_reset := true, signaled := false } else s.handles k) ∧
      r.state.calls = s.calls := by
  simp [create_proxy, HeapAlloc, CreateEvent, proxy_data.zero, Process.load_proxy, Process.store]
  intro q
  by_cases hq : q = p <;> simp [hq]

theorem create_proxy_event_failure_eval (p : Ptr) (logger : Option Ptr)
    (paths : connection_paths) (exit_event : HANDLE) (s : Process) :
    ∃ r, create_proxy (some p) none logger paths exit_event s = Outcome.ok r ∧
      r.ret = false ∧ r.out_proxy = none ∧
      (∀ q, r.state.heap q = if q = p then none else s.heap q) ∧
      r.state.handles = s.handles ∧
      r.state.calls = s.calls ++ [Call.HeapFree p] := by
  simp [create_proxy, HeapAlloc, CreateEvent, HeapFree]
  intro q
  by_cases hq : q = p <;> simp [hq]

theorem destroy_single_eval (ndebug : Bool) (fuel : Nat) {p a : Ptr} {s : Process}
    {d : proxy_data} (hd : s.heap p = some (Block.proxy d))
    (ha : s.heap a = some (Block.entry { previous := none, next := none }))
    (hstart : d.connections_start = some a) (hend : d.connections_end = some a) :
    ∃ s2, destroy_proxy ndebug (fuel + 1) p s = Outcome.ok s2 ∧
      s2.calls = s.calls ++ [Call.HeapFree a, Call.CloseHandle d.connect_overlapped.hEvent,
        Call.HeapFree p] ∧
      (∀ q, s2.heap q = if q = p then none else if q = a then none else s.heap q) ∧
      s2.handles = (CloseHandle d.connect_overlapped.hEvent s).handles := by
  have hap : a ≠ p := by
    intro h
    rw [h, hd] at ha
    cases ha
  cases hh : d.connect_overlapped.hEvent <;>
    simp [destroy_proxy, destroy_loop, load_proxy_of_heap hd, hstart, hend, c_assert,
      load_entry_of_heap ha, HeapFree, ha, hd, Process.load_proxy, hap, Ne.symm hap, CloseHandle,
      hh]

theorem closed_handles_append (xs ys : List Call) :
    closed_handles (xs ++ ys) = closed_handles xs ++ closed_handles ys := by
  induction xs with
  | nil => rfl
  | cons c cs ih =>
    cases c with
    | HeapFree p => simpa [closed_handles] using ih
    | CloseHandle h => simpa [closed_handles] using ih

theorem Outcome.bind_eq_ok {α β : Type} {x : Outcome α} {f : α → Outcome β} {b : β}
    (h : (x >>= f) = Outcome.ok b) : ∃ a, x = Outcome.ok a ∧ f a = Outcome.ok b := by
  cases x with
  | ok a => exact ⟨a, rfl, h⟩
  | assert_failed l => cases h
  | undefined_behaviour => cases h
  | out_of_fuel => cases h

theorem load_proxy_eq_ok {s : Process} {p : Ptr} {d : proxy_data}
    (h : s.load_proxy p = Outcome.ok d) : s.heap p = some (Block.proxy d) := by
  unfold Process.load_proxy at h
  split at h
  · rename_i d2 hd2
    cases h
    exact hd2
  · cases h

theorem load_entry_eq_ok {s : Process} {e : Option Ptr} {r : connection_list_entry}
    (h : s.load_entry e = Outcome.ok r) :
    ∃ a, e = some a ∧ s.heap a = some (Block.entry r) := by
  unfold Process.load_entry at h
  split at h
  · cases h
  · rename_i a
    split at h
    · rename_i r2 hr2
      cases h
      exact ⟨a, rfl, hr2⟩
    · cases h

theorem events_kept_refl (proxy : Ptr) (s : Process) : events_kept proxy s s :=
  ⟨rfl, rfl, fun d hd => ⟨d, hd, rfl, rfl⟩⟩

theorem events_kept_trans {proxy : Ptr} {s1 s2 s3 : Process}
    (h12 : events_kept proxy s1 s2) (h23 : events_kept proxy s2 s3) :
    events_kept proxy s1 s3 := by
  obtain ⟨a1, b1, c1⟩ := h12
  obtain ⟨a2, b2, c2⟩ := h23
  refine ⟨a2.trans a1, b2.trans b1, ?_⟩
  intro d hd
  obtain ⟨d2, hd2, e2, f2⟩ := c1 d hd
  obtain ⟨d3, hd3, e3, f3⟩ := c2 d2 hd2
  exact ⟨d3, hd3, e3.trans e2, f3.trans f2⟩

theorem store_entry_kept {proxy a : Ptr} {s : Process} {r : connection_list_entry}
    (ha : s.heap a = some (Block.entry r)) (r2 : connection_list_entry) :
    events_kept proxy s (s.store a (Block.entry r2)) := by
  refine ⟨rfl, rfl, ?_⟩
  intro d hd
  have hne : proxy ≠ a := by
    intro h
    rw [h, ha] at hd
    cases hd
  exact ⟨d, by simp [hne, hd], rfl, rfl⟩

theorem set_connections_start_kept {proxy : Ptr} {v : Option Ptr} {s s2 : Process}
    (h : set_connections_start proxy v s = Outcome.ok s2) : events_kept proxy s s2 := by
  obtain ⟨d0, hd0, h2⟩ := Outcome.bind_eq_ok h
  cases h2
  have hd0 := load_proxy_eq_ok hd0
  refine ⟨rfl, rfl, ?_⟩
  intro d hd
  rw [hd0] at hd
  cases hd
  exact ⟨{ d0 with connections_start := v }, by simp, rfl, rfl⟩

theorem set_connections_end_kept {proxy : Ptr} {v : Option Ptr} {s s2 : Process}
    (h : set_connections_end proxy v s = Outcome.ok s2) : events_kept proxy s s2 := by
  obtain ⟨d0, hd0, h2⟩ := Outcome.bind_eq_ok h
  cases h2
  have hd0 := load_proxy_eq_ok hd0
  refine ⟨rfl, rfl, ?_⟩
  intro d hd
  rw [hd0] at hd
  cases hd
  exact ⟨{ d0 with connections_end := v }, by simp, rfl, rfl⟩

theorem set_next_kept {proxy : Ptr} {e v : Option Ptr} {s s2 : Process}
    (h : set_next e v s = Outcome.ok s2) : events_kept proxy s s2 := by
  obtain ⟨r, hr, h2⟩ := Outcome.bind_eq_ok h
  obtain ⟨a, rfl, ha⟩ := load_entry_eq_ok hr
  cases h2
  exact store_entry_kept ha _

theorem set_previous_kept {proxy : Ptr} {e v : Option Ptr} {s s2 : Process}
    (h : set_previous e v s = Outcome.ok s2) : events_kept proxy s s2 := by
  obtain ⟨r, hr, h2⟩ := Outcome.bind_eq_ok h
  obtain ⟨a, rfl, ha⟩ := load_entry_eq_ok hr
  cases h2
  exact store_entry_kept ha _

theorem unlink_from_start_kept {proxy x : Ptr} {s s2 : Process}
    (h : unlink_from_start proxy x s = Outcome.ok s2) : events_kept proxy s s2 := by
  obtain ⟨d, -, h2⟩ := Outcome.bind_eq_ok h
  split at h2
  · obtain ⟨r, -, h3⟩ := Outcome.bind_eq_ok h2
    exact set_connections_start_kept h3
  · cases h2
    exact events_kept_refl proxy s

theorem unlink_from_end_kept {proxy x : Ptr} {s s2 : Process}
    (h : unlink_from_end proxy x s = Outcome.ok s2) : events_kept proxy s s2 := by
  obtain ⟨d, -, h2⟩ := Outcome.bind_eq_ok h
  split at h2
  · obtain ⟨r, -, h3⟩ := Outcome.bind_eq_ok h2
    exact set_connections_end_kept h3
  · cases h2
    exact events_kept_refl proxy s

theorem relink_previous_kept {proxy x : Ptr} {s s2 : Process}
    (h : relink_previous x s = Outcome.ok s2) : events_kept proxy s s2 := by
  obtain ⟨r, -, h2⟩ := Outcome.bind_eq_ok h
  split at h2
  · exact set_next_kept h2
  · cases h2
    exact events_kept_refl proxy s

theorem relink_next_kept {proxy x : Ptr} {s s2 : Process}
    (h : relink_next x s = Outcome.ok s2) :
    events_kept proxy s s2 ∧ ∃ r, s2.heap x = some (Block.entry r) := by
  obtain ⟨r, hr, h2⟩ := Outcome.bind_eq_ok h
  obtain ⟨a, ha, hx⟩ := load_entry_eq_ok hr
  cases ha
  split at h2
  · refine ⟨set_previous_kept h2, ?_⟩
    obtain ⟨rb, hrb, h3⟩ := Outcome.bind_eq_ok h2
    obtain ⟨b, hb, -⟩ := load_entry_eq_ok hrb
    rw [hb] at h3
    cases h3
    by_cases hab : x = b
    · exact ⟨{ previous := r.previous, next := rb.next }, by simp [hab]⟩
    · exact ⟨r, by simp [hab, hx]⟩
  · cases h2
    exact ⟨events_kept_refl proxy s, r, hx⟩

theorem heap_free_kept {proxy x : Ptr} {s s2 : Process} {r : connection_list_entry}
    (hx : s.heap x = some (Block.entry r)) (h : HeapFree x s = Outcome.ok s2) :
    events_kept proxy s s2 := by
  unfold HeapFree at h
  rw [hx] at h
  cases h
  refine ⟨rfl, ?_, ?_⟩
  · simp [closed_handles_append, closed_handles]
  · intro d hd
    have hne : proxy ≠ x := by
      intro h
      rw [h, hx] at hd
      cases hd
    exact ⟨d, by simp [hne, hd], rfl, rfl⟩

theorem deallocate_connection_kept {off : Nat} {proxy c : Ptr} {s s2 : Process}
    (h : deallocate_connection off proxy c s = Outcome.ok s2) : events_kept proxy s s2 := by
  have h0 : (s.load_proxy proxy >>= fun _ =>
      unlink_from_start proxy (c - off) s >>= fun t1 =>
      unlink_from_end proxy (c - off) t1 >>= fun t2 =>
      relink_previous (c - off) t2 >>= fun t3 =>
      relink_next (c - off) t3 >>= fun t4 => HeapFree (c - off) t4) = Outcome.ok s2 := h
  obtain ⟨-, -, h1⟩ := Outcome.bind_eq_ok h0
  obtain ⟨t1, ht1, h2⟩ := Outcome.bind_eq_ok h1
  obtain ⟨t2, ht2, h3⟩ := Outcome.bind_eq_ok h2
  obtain ⟨t3, ht3, h4⟩ := Outcome.bind_eq_ok h3
  obtain ⟨t4, ht4, h5⟩ := Outcome.bind_eq_ok h4
  obtain ⟨k4, r, hr⟩ := @relink_next_kept proxy _ _ _ ht4
  exact events_kept_trans (unlink_from_start_kept ht1)
    (events_kept_trans (unlink_from_end_kept ht2)
      (events_kept_trans (relink_previous_kept ht3)
        (events_kept_trans k4 (heap_free_kept hr h5))))



theorem allocate_connection_kept {ndebug : Bool} {off : Nat} {choice : Option Ptr}
    {proxy : Ptr} {s : Process} {r : allocate_result}
    (h : allocate_connection ndebug off choice proxy s = Outcome.ok r) :
    events_kept proxy s r.state := by
  cases choice with
  | none =>
    unfold allocate_connection at h
    obtain ⟨d0, hd0, h1⟩ := Outcome.bind_eq_ok h
    simp only [HeapAlloc] at h1
    cases h1
    exact events_kept_refl proxy s
  | some e =>
    unfold allocate_connection at h
    obtain ⟨d0, hd0, h1⟩ := Outcome.bind_eq_ok h
    simp only [HeapAlloc] at h1
    obtain ⟨d, hd, h2⟩ := Outcome.bind_eq_ok h1
    have hd1 := load_proxy_eq_ok hd
    have hne : proxy ≠ e := by
      intro hpe
      rw [hpe] at hd1
      simp at hd1
    have k1 : events_kept proxy s (s.store e (Block.entry connection_list_entry.zero)) := by
      refine ⟨rfl, rfl, ?_⟩
      intro d2 hd2
      exact ⟨d2, by simp [hne, hd2], rfl, rfl⟩
    split at h2
    · obtain ⟨-, -, h5⟩ := Outcome.bind_eq_ok h2
      obtain ⟨s4, h6, h7⟩ := Outcome.bind_eq_ok h5
      obtain ⟨s5, h8, h9⟩ := Outcome.bind_eq_ok h7
      cases h9
      exact events_kept_trans k1
        (events_kept_trans (set_connections_start_kept h6) (set_connections_end_kept h8))
    · obtain ⟨-, -, h5⟩ := Outcome.bind_eq_ok h2
      obtain ⟨-, -, h6⟩ := Outcome.bind_eq_ok h5
      obtain ⟨s4, h7, h8⟩ := Outcome.bind_eq_ok h6
      obtain ⟨d4, -, h9⟩ := Outcome.bind_eq_ok h8
      obtain ⟨s5, h10, h11⟩ := Outcome.bind_eq_ok h9
      cases h11
      exact events_kept_trans k1
        (events_kept_trans (set_previous_kept h7) (set_next_kept h10))

theorem destroy_loop_only_frees : ∀ (fuel : Nat) (p : Option Ptr) (s s2 : Process),
    destroy_loop fuel p s = Outcome.ok s2 →
    s2.handles = s.handles ∧ closed_handles s2.calls = closed_handles s.calls ∧
      ∀ q b, s2.heap q = some b → s.heap q = some b := by
  intro fuel
  induction fuel with
  | zero =>
    intro p s s2 h
    cases p with
    | none =>
      cases h
      exact ⟨rfl, rfl, fun q b hb => hb⟩
    | some a => cases h
  | succ n ih =>
    intro p s s2 h
    cases p with
    | none =>
      cases h
      exact ⟨rfl, rfl, fun q b hb => hb⟩
    | some a =>
      have h0 : (s.load_entry (some a) >>= fun r =>
          HeapFree a s >>= fun t => destroy_loop n r.next t) = Outcome.ok s2 := h
      obtain ⟨r, -, h1⟩ := Outcome.bind_eq_ok h0
      obtain ⟨t, ht, h2⟩ := Outcome.bind_eq_ok h1
      obtain ⟨a1, a2, a3⟩ := ih r.next t s2 h2
      unfold HeapFree at ht
      split at ht
      · cases ht
      · cases ht
        refine ⟨a1, ?_, ?_⟩
        · rw [a2]
          simp [closed_handles_append, closed_handles]
        · intro q b hb
          have hq := a3 q b hb
          by_cases hqa : q = a
          · simp [hqa] at hq
          · simpa [hqa] using hq

theorem destroy_proxy_closes_connect_event {ndebug : Bool} {fuel : Nat} {proxy : Ptr}
    {s s2 : Process} {d : proxy_data} (hd : s.heap proxy = some (Block.proxy d))
    (h : destroy_proxy ndebug fuel proxy s = Outcome.ok s2) :
    closed_handles s2.calls = closed_handles s.calls ++ [d.connect_overlapped.hEvent] ∧
      ∀ k, d.connect_overlapped.hEvent ≠ some k → s2.handles k = s.handles k := by
  unfold destroy_proxy at h
  rw [load_proxy_of_heap hd] at h
  simp only [Outcome.ok_bind] at h
  obtain ⟨-, -, h1⟩ := Outcome.bind_eq_ok h
  obtain ⟨-, -, h2⟩ := Outcome.bind_eq_ok h1
  obtain ⟨t, ht, h3⟩ := Outcome.bind_eq_ok h2
  obtain ⟨d1, hd1, h4⟩ := Outcome.bind_eq_ok h3
  obtain ⟨a1, a2, a3⟩ := destroy_loop_only_frees fuel _ s t ht
  have hd2 := a3 proxy _ (load_proxy_eq_ok hd1)
  rw [hd] at hd2
  cases hd2
  unfold HeapFree at h4
  split at h4
  · cases h4
  · cases h4
    constructor
    · cases hh : d.connect_overlapped.hEvent <;>
        simp [CloseHandle, closed_handles_append, closed_handles, a2]
    · intro k hk
      cases hh : d.connect_overlapped.hEvent with
      | none => simp [CloseHandle, a1]
      | some j =>
        have hkj : k ≠ j := by
          intro hkj
          rw [hh, hkj] at hk
          exact hk rfl
        simp [CloseHandle, a1, hkj]

/-! ## Claims -/

/-- Claim C1 (what the code does): on a freshly created instance two successful
`allocate_connection` calls leave `connections_end` on the first record although that record now
has a successor; the second and third list invariants are broken after the second call, in a
build with assertions as in one without. -/
theorem two_allocations_leave_tail_with_successor (ndebug : Bool) :
    ∃ r s d, create_proxy (some 100) (some 7) none { raw := [] } (some 9) Process.empty
        = Outcome.ok r ∧
      r.ret = true ∧ r.out_proxy = some 100 ∧
      run_calls ndebug 16 100
        [RegistryCall.allocate (some 1), RegistryCall.allocate (some 2)] r.state = Outcome.ok s ∧
      s.load_proxy 100 = Outcome.ok d ∧ d.connections_end = some 1 ∧
      s.entry_at 1 = some { previous := none, next := some 2 } ∧
      ¬ list_invariants s 100 := by
  have key : ∀ (s : Process) (d : proxy_data), s.load_proxy 100 = Outcome.ok d →
      d.connections_end = some 1 → s.entry_at 1 = some { previous := none, next := some 2 } →
      ¬ list_invariants s 100 := by
    intro s d hd hend h1 hinv
    obtain ⟨e, he, hn⟩ := invariants_give_tail hinv hd 1 hend
    rw [h1] at he
    cases he
    cases hn
  cases ndebug
  · exact ⟨_, _, _, rfl, rfl, rfl, rfl, rfl, rfl, rfl, key _ _ rfl rfl rfl⟩
  · exact ⟨_, _, _, rfl, rfl, rfl, rfl, rfl, rfl, rfl, key _ _ rfl rfl rfl⟩

/-- Claim C2 (what the code does): on an instance whose list is the single record 1 and satisfies
the three invariants, a successful `allocate_connection` links the new record 2 after record 1
and leaves `connections_start` alone, but `connections_end` is still record 1 afterwards, not the
new record. -/
theorem allocate_on_nonempty_keeps_old_tail (ndebug : Bool) :
    ∃ r s d a d2, create_proxy (some 100) (some 7) none { raw := [] } (some 9) Process.empty
        = Outcome.ok r ∧
      run_calls ndebug 16 100 [RegistryCall.allocate (some 1)] r.state = Outcome.ok s ∧
      list_invariants s 100 ∧
      s.load_proxy 100 = Outcome.ok d ∧ d.connections_end = some 1 ∧
      allocate_connection ndebug 16 (some 2) 100 s = Outcome.ok a ∧
      a.ret = true ∧ a.out_connection = some (2 + 16) ∧
      a.state.load_proxy 100 = Outcome.ok d2 ∧
      d2.connections_start = some 1 ∧
      a.state.entry_at 1 = some { previous := none, next := some 2 } ∧
      a.state.entry_at 2 = some { previous := some 1, next := none } ∧
      d2.connections_end = some 1 ∧ d2.connections_end ≠ some 2 := by
  cases ndebug
  · refine ⟨_, _, _, _, _, rfl, rfl, single_record_invariants rfl rfl rfl ?_, rfl, rfl, rfl,
      rfl, rfl, rfl, rfl, rfl, rfl, rfl, by decide⟩
    intro a
    by_cases h100 : a = 100 <;> by_cases h1 : a = 1 <;>
      simp [Process.entry_at, h100, h1, Process.empty, connection_list_entry.zero]
  · refine ⟨_, _, _, _, _, rfl, rfl, single_record_invariants rfl rfl rfl ?_, rfl, rfl, rfl,
      rfl, rfl, rfl, rfl, rfl, rfl, rfl, by decide⟩
    intro a
    by_cases h100 : a = 100 <;> by_cases h1 : a = 1 <;>
      simp [Process.entry_at, h100, h1, Process.empty, connection_list_entry.zero]

/-- Claim C3 (what the code does): allocate A, B, C at addresses 1, 2, 3 on a fresh instance, then
deallocate B. With assertions compiled in, the third allocation stops at the assertion of line
108. Under `NDEBUG` the run ends with `connections_start = connections_end = A`, `A.next` null,
and C outside the list (only `C.previous = A` remembers it): the list is `[A]`, not `[A, C]`. -/
theorem scenario_deallocate_middle_of_three :
    ∃ r, create_proxy (some 100) (some 7) none { raw := [] } (some 9) Process.empty
        = Outcome.ok r ∧
      r.ret = true ∧ r.out_proxy = some 100 ∧
      run_calls false 16 100
        [RegistryCall.allocate (some 1), RegistryCall.allocate (some 2),
         RegistryCall.allocate (some 3), RegistryCall.deallocate (2 + 16)] r.state
        = Outcome.assert_failed 108 ∧
      ∃ s d, run_calls true 16 100
        [RegistryCall.allocate (some 1), RegistryCall.allocate (some 2),
         RegistryCall.allocate (some 3), RegistryCall.deallocate (2 + 16)] r.state
        = Outcome.ok s ∧
      s.load_proxy 100 = Outcome.ok d ∧
      d.connections_start = some 1 ∧ d.connections_end = some 1 ∧
      d.connections_end ≠ some 3 ∧
      s.entry_at 1 = some { previous := none, next := none } ∧
      s.entry_at 2 = none ∧
      s.entry_at 3 = some { previous := some 1, next := none } :=
  ⟨_, rfl, rfl, rfl, rfl, _, _, rfl, rfl, rfl, rfl, by decide, rfl, rfl, rfl⟩

/-- Claim C4 as stated fails: `stale_previous_instance` satisfies the three list invariants with
walk `[1, 2]`, yet after `deallocate_connection` on record 2 the head still points at the freed
record: the walk is not `[1]` and the invariants are lost. -/
theorem stale_previous_breaks_deallocate :
    list_invariants stale_previous_instance 100 ∧
    next_walk stale_previous_instance (some 1) [1, 2] ∧
    ∃ s2, deallocate_connection 16 100 (2 + 16) stale_previous_instance = Outcome.ok s2 ∧
      s2.heap 100 = some (Block.proxy (sample_proxy (some 1) none)) ∧
      s2.entry_at 1 = some { previous := none, next := some 2 } ∧
      s2.heap 2 = none ∧
      ¬ next_walk s2 (some 1) ([1, 2].erase 2) ∧
      ¬ list_invariants s2 100 := by
  refine ⟨⟨sample_proxy (some 1) (some 2), rfl, ?_, ?_, [1, 2], ?_, by decide, ?_, rfl⟩,
    ?_, ?_⟩
  · intro a ha
    cases ha
    exact ⟨_, rfl, rfl⟩
  · intro a ha
    cases ha
    exact ⟨_, rfl, rfl⟩
  · exact ⟨rfl, _, rfl, rfl, _, rfl, rfl⟩
  · intro a
    by_cases h100 : a = 100 <;> by_cases h1 : a = 1 <;> by_cases h2 : a = 2 <;>
      simp [Process.entry_at, stale_previous_instance, h100, h1, h2]
  · exact ⟨rfl, _, rfl, rfl, _, rfl, rfl⟩
  · refine ⟨_, rfl, rfl, rfl, rfl, ?_, ?_⟩
    · rintro ⟨-, e, he, hw⟩
      cases he
      cases hw
    · rintro ⟨d, hd, -, -, l, hw, -, -, hlast⟩
      cases hd
      have hl : l = [] := List.getLast?_eq_none_iff.mp hlast
      subst hl
      cases hw

/-- Claim C4 (amended): on an instance whose list satisfies the three invariants and whose
`previous` links mirror its `next` links, `deallocate_connection` on the handle of a record of
the list succeeds; afterwards the three invariants and the mirroring hold again, the `next` walk
is the previous walk with exactly that record erased (the others keep their order), and the
record has been freed by exactly one `HeapFree`. -/
theorem deallocate_connection_unlinks_record (off : Nat) (proxy x : Ptr) (s : Process)
    (d : proxy_data) (l : List Ptr)
    (hd : s.heap proxy = some (Block.proxy d))
    (hinv : list_invariants s proxy) (hm : previous_mirrors_next s)
    (hw : next_walk s d.connections_start l) (hx : x ∈ l) :
    ∃ s2 d2, deallocate_connection off proxy (x + off) s = Outcome.ok s2 ∧
      s2.heap proxy = some (Block.proxy d2) ∧
      list_invariants s2 proxy ∧ previous_mirrors_next s2 ∧
      next_walk s2 d2.connections_start (l.erase x) ∧
      s2.heap x = none ∧ s2.calls = s.calls ++ [Call.HeapFree x] := by
  obtain ⟨d0, hd0, h1, h2, l0, hw0, hnd, hcov, hlast⟩ := hinv
  rw [hd] at hd0
  cases hd0
  have hl := walk_unique l0 l _ hw0 hw
  subst hl
  obtain ⟨hc, hstart⟩ := chain_of_walk hm l0 d.connections_start none hw h1
  have hlive : ∀ a, a ∈ l0 → ∃ ra, s.heap a = some (Block.entry ra) := by
    intro a ha
    have h := (hcov a).mp ha
    obtain ⟨ra, hra⟩ := Option.isSome_iff_exists.mp h
    exact ⟨ra, entry_at_eq_some.mp hra⟩
  obtain ⟨r, hr⟩ := hlive x hx
  have hrE := entry_at_eq_some.mpr hr
  have hpx : ∀ a, r.previous = some a → ∃ ra, s.heap a = some (Block.entry ra) := by
    intro a ha
    rcases chain_previous_mem hrE l0 none hc hx with h | ⟨c, hc2, h⟩
    · rw [ha] at h
      cases h
    · rw [ha] at h
      cases h
      exact hlive a hc2
  have hnx : ∀ b, r.next = some b → ∃ rb, s.heap b = some (Block.entry rb) :=
    fun b hb => hlive b (chain_next_mem hrE l0 none hc hx b hb)
  obtain ⟨s2, e2, -, hcalls, hp2⟩ := deallocate_eval off hd hr hpx hnx
  have hxp : x ≠ proxy := by
    intro h
    rw [h, hd] at hr
    cases hr
  have hd2 := hp2 proxy
  rw [if_neg (Ne.symm hxp), if_pos rfl] at hd2
  have hx2 : s2.heap x = none := by rw [hp2, if_pos rfl]
  have hE : ∀ q, q ≠ x → s2.entry_at q =
      (if r.next = some q then Option.map (fun e => { e with previous := r.previous }) else id)
        ((if r.previous = some q then Option.map (fun e => { e with next := r.next }) else id)
          (s.entry_at q)) := by
    intro q hq
    by_cases hq2 : q = proxy
    · subst hq2
      rw [entry_at_of_heap_proxy hd2, entry_at_of_heap_proxy hd]
      by_cases ha : r.next = some q <;> by_cases hb : r.previous = some q <;> simp [ha, hb]
    · unfold Process.entry_at
      rw [hp2, if_neg hq, if_neg hq2]
      cases hh : s.heap q with
      | none =>
        by_cases ha : r.next = some q <;> by_cases hb : r.previous = some q <;> simp [ha, hb]
      | some b =>
        cases b <;>
          by_cases ha : r.next = some q <;> by_cases hb : r.previous = some q <;>
          simp [ha, hb, Block.with_next, Block.with_previous]
  have hc2 := chain_erase hrE hE l0 none hc hnd hx (fun a ha => by cases ha)
  have hhead := chain_erase_head hrE hc hx
  rw [← hstart] at hhead
  have hlast2 := chain_erase_last hrE l0 none hc hnd hx
  rw [Option.or_none, hlast] at hlast2
  have hcov2 : ∀ a, a ∈ l0.erase x ↔ (s2.entry_at a).isSome := by
    intro a
    rw [hnd.mem_erase_iff]
    by_cases hax : a = x
    · subst hax
      simp [entry_at_of_heap_none hx2]
    · rw [hE a hax, hcov a]
      by_cases ha : r.next = some a <;> by_cases hb : r.previous = some a <;> simp [ha, hb, hax]
  obtain ⟨hinv2, hm2⟩ := invariants_of_chain hd2 hc2 (hnd.erase x) hcov2 hhead.symm hlast2.symm
  refine ⟨s2, _, e2, hd2, hinv2, hm2, ?_, hx2, hcalls⟩
  have := walk_of_chain _ none hc2
  rw [hhead] at this
  exact this

/-- The amended claim C4 at `two_record_instance`, deallocating record 1. -/
theorem deallocate_connection_unlinks_record_witness :
    list_invariants two_record_instance 100 ∧ previous_mirrors_next two_record_instance ∧
    next_walk two_record_instance (sample_proxy (some 1) (some 2)).connections_start [1, 2] ∧
    1 ∈ [1, 2] ∧
    ∃ s2 d2, deallocate_connection 16 100 (1 + 16) two_record_instance = Outcome.ok s2 ∧
      s2.heap 100 = some (Block.proxy d2) ∧
      list_invariants s2 100 ∧ previous_mirrors_next s2 ∧
      next_walk s2 d2.connections_start ([1, 2].erase 1) ∧
      s2.heap 1 = none ∧ s2.calls = two_record_instance.calls ++ [Call.HeapFree 1] :=
  ⟨two_record_chain.1, two_record_chain.2, ⟨rfl, _, rfl, rfl, _, rfl, rfl⟩, by decide,
    deallocate_connection_unlinks_record 16 100 1 two_record_instance
      (sample_proxy (some 1) (some 2)) [1, 2] rfl two_record_chain.1 two_record_chain.2
      ⟨rfl, _, rfl, rfl, _, rfl, rfl⟩ (by decide)⟩

/-- Claim C5: on an instance whose list satisfies the three invariants, a successful
`allocate_connection` followed at once by `deallocate_connection` of the returned handle succeeds
and gives back the heap of before the allocation: same head, same tail, same links in every
record. -/
theorem allocate_then_deallocate_restores_heap (ndebug : Bool) (off : Nat)
    (proxy entry : Ptr) (s : Process)
    (hinv : list_invariants s proxy) (hfresh : s.heap entry = none) :
    ∃ r s2, allocate_connection ndebug off (some entry) proxy s = Outcome.ok r ∧
      r.ret = true ∧ r.out_connection = some (entry + off) ∧
      deallocate_connection off proxy (entry + off) r.state = Outcome.ok s2 ∧
      s2.heap = s.heap ∧ s2.handles = s.handles := by
  obtain ⟨d, hd, h1, h2, l, hw, hnd, hcov, hlast⟩ := hinv
  have hne : proxy ≠ entry := by
    intro h
    rw [h, hfresh] at hd
    cases hd
  cases hend : d.connections_end with
  | none =>
    have hstart : d.connections_start = none :=
      walk_nil_of_last_none hw (by rw [hlast, hend])
    have hA := allocate_empty_eval ndebug off hd hfresh hend hstart
    have hdA : ((s.store entry (Block.entry connection_list_entry.zero)).store proxy
        (Block.proxy { d with connections_start := some entry,
                              connections_end := some entry })).heap proxy
        = some (Block.proxy { d with connections_start := some entry,
                                     connections_end := some entry }) := by simp
    have hxA : ((s.store entry (Block.entry connection_list_entry.zero)).store proxy
        (Block.proxy { d with connections_start := some entry,
                              connections_end := some entry })).heap entry
        = some (Block.entry connection_list_entry.zero) := by simp [hne.symm]
    obtain ⟨s2, e2, hh2, -, hp2⟩ := deallocate_eval off hdA hxA
      (by intro a ha; cases ha) (by intro a ha; cases ha)
    refine ⟨_, s2, hA, rfl, rfl, e2, ?_, hh2⟩
    funext q
    rw [hp2]
    by_cases hq : q = entry
    · simp [hq, hfresh]
    · by_cases hq2 : q = proxy
      · rw [if_neg hq, if_pos hq2, hq2, hd]
        simp [connection_list_entry.zero]
        cases d
        simp_all
      · simp [hq, hq2, connection_list_entry.zero]
  | some t =>
    obtain ⟨rt, hrt, hrtn⟩ := h2 t hend
    have hrt2 := entry_at_eq_some.mp hrt
    have hl : l ≠ [] := by
      intro h
      rw [h, hend] at hlast
      cases hlast
    obtain ⟨a, ra, hsa, hra⟩ := walk_head_live hw hl
    have hae : a ≠ entry := by
      intro h
      rw [h, hfresh] at hra
      cases hra
    have hte : t ≠ entry := by
      intro h
      rw [h, hfresh] at hrt2
      cases hrt2
    have htp : t ≠ proxy := by
      intro h
      rw [h, hd] at hrt2
      cases hrt2
    have hA := allocate_append_eval ndebug off hd hfresh hend (by rw [hsa]; rfl) hrt2 hrtn
    have hdA : ((s.store entry (Block.entry { previous := some t, next := none })).store t
        (Block.entry { rt with next := some entry })).heap proxy = some (Block.proxy d) := by
      simp [hne, Ne.symm htp, hd]
    have hxA : ((s.store entry (Block.entry { previous := some t, next := none })).store t
        (Block.entry { rt with next := some entry })).heap entry
        = some (Block.entry { previous := some t, next := none }) := by
      simp [Ne.symm hte]
    obtain ⟨s2, e2, hh2, -, hp2⟩ := deallocate_eval off hdA hxA
      (by
        intro b hb
        cases hb
        exact ⟨{ rt with next := some entry }, by simp⟩)
      (by intro b hb; cases hb)
    refine ⟨_, s2, hA, rfl, rfl, e2, ?_, hh2⟩
    funext q
    rw [hp2]
    by_cases hq : q = entry
    · simp [hq, hfresh]
    · by_cases hq2 : q = proxy
      · rw [if_neg hq, if_pos hq2, hq2, hd]
        simp [hsa, hend, hae, hte]
        cases d
        simp_all
      · by_cases hq3 : q = t
        · simp [hq3, hte, htp, hrt2, Block.with_next]
          cases rt
          simp_all
        · simp [hq, hq2, hq3, Ne.symm hq3]

/-- Claim C5 at `two_record_instance`, allocating at the free address 3. -/
theorem allocate_then_deallocate_restores_heap_witness :
    list_invariants two_record_instance 100 ∧ two_record_instance.heap 3 = none ∧
    ∃ r s2, allocate_connection false 16 (some 3) 100 two_record_instance = Outcome.ok r ∧
      r.ret = true ∧ r.out_connection = some (3 + 16) ∧
      deallocate_connection 16 100 (3 + 16) r.state = Outcome.ok s2 ∧
      s2.heap = two_record_instance.heap ∧ s2.handles = two_record_instance.handles :=
  ⟨two_record_chain.1, rfl,
    allocate_then_deallocate_restores_heap false 16 100 3 two_record_instance
      two_record_chain.1 rfl⟩

/-- Claim C6 (what the code does): after two successful allocations `destroy_proxy` stops at the
assertion of line 63 when assertions are compiled in; under `NDEBUG`, after three successful
allocations it frees records 1 and 3, closes the event and frees the instance, and record 2 is
never freed. -/
theorem destroy_after_allocations_aborts_or_leaks :
    ∃ r, create_proxy (some 100) (some 7) none { raw := [] } (some 9) Process.empty
        = Outcome.ok r ∧
      r.ret = true ∧ r.out_proxy = some 100 ∧
      (∃ s2, run_calls false 16 100
          [RegistryCall.allocate (some 1), RegistryCall.allocate (some 2)] r.state
          = Outcome.ok s2 ∧
        ∀ fuel, destroy_proxy false fuel 100 s2 = Outcome.assert_failed 63) ∧
      (∃ s3 s4, run_calls true 16 100
          [RegistryCall.allocate (some 1), RegistryCall.allocate (some 2),
           RegistryCall.allocate (some 3)] r.state = Outcome.ok s3 ∧
        destroy_proxy true 3 100 s3 = Outcome.ok s4 ∧
        s4.calls = [Call.HeapFree 1, Call.HeapFree 3, Call.CloseHandle (some 7),
          Call.HeapFree 100] ∧
        s4.entry_at 2 = some { previous := some 1, next := none }) :=
  ⟨_, rfl, rfl, rfl, ⟨_, rfl, fun _ => rfl⟩, ⟨_, _, rfl, rfl, rfl, rfl⟩⟩

/-- Claim C7 (what the code does): allocate 1, allocate 2, deallocate 1, allocate 3. With
assertions compiled in, the last allocation stops at the assertion of line 101. Under `NDEBUG`
records 2 and 3 are the ones allocated and never deallocated, yet the loop of `destroy_proxy`
frees record 3 only. -/
theorem destroy_loop_misses_surviving_record :
    ∃ r, create_proxy (some 100) (some 7) none { raw := [] } (some 9) Process.empty
        = Outcome.ok r ∧
      r.ret = true ∧ r.out_proxy = some 100 ∧
      run_calls false 16 100
        [RegistryCall.allocate (some 1), RegistryCall.allocate (some 2),
         RegistryCall.deallocate (1 + 16), RegistryCall.allocate (some 3)] r.state
        = Outcome.assert_failed 101 ∧
      ∃ s d s2 s3, run_calls true 16 100
        [RegistryCall.allocate (some 1), RegistryCall.allocate (some 2),
         RegistryCall.deallocate (1 + 16), RegistryCall.allocate (some 3)] r.state
        = Outcome.ok s ∧
      s.calls = [Call.HeapFree 1] ∧
      s.entry_at 2 = some { previous := none, next := none } ∧
      s.load_proxy 100 = Outcome.ok d ∧
      destroy_loop 2 d.connections_start s = Outcome.ok s2 ∧
      s2.calls = s.calls ++ [Call.HeapFree 3] ∧
      destroy_proxy true 2 100 s = Outcome.ok s3 ∧
      s3.calls = [Call.HeapFree 1, Call.HeapFree 3, Call.CloseHandle (some 7),
        Call.HeapFree 100] ∧
      s3.entry_at 2 = some { previous := none, next := none } :=
  ⟨_, rfl, rfl, rfl, rfl, _, _, _, _, rfl, rfl, rfl, rfl, rfl, rfl, rfl, rfl, rfl⟩

/-- Claim C8: when `HeapAlloc` returns `NULL` inside `allocate_connection`, the call returns
`FALSE`, writes nothing to `*out_connection`, and the whole process state (the instance, every
record and its links) is the one of before the call. -/
theorem allocate_connection_failure_leaves_state (ndebug : Bool) (off : Nat) (proxy : Ptr)
    (s : Process) (d : proxy_data) (hd : s.heap proxy = some (Block.proxy d)) :
    allocate_connection ndebug off none proxy s
      = Outcome.ok { ret := false, out_connection := none, state := s } := by
  simp [allocate_connection, load_proxy_of_heap hd, HeapAlloc]

/-- Claim C8 at `two_record_instance`. -/
theorem allocate_connection_failure_leaves_state_witness :
    two_record_instance.heap 100 = some (Block.proxy (sample_proxy (some 1) (some 2))) ∧
    allocate_connection false 16 none 100 two_record_instance
      = Outcome.ok { ret := false, out_connection := none, state := two_record_instance } :=
  ⟨rfl, allocate_connection_failure_leaves_state false 16 100 two_record_instance
    (sample_proxy (some 1) (some 2)) rfl⟩

/-- Claim C9: when `HeapAlloc` hands out a block for the instance and `CreateEvent` then fails,
`create_proxy` returns `FALSE`, writes nothing to `*out_proxy`, and has freed the block again:
the heap and the handle table are those of before the call, and the one releasing call made is
the `HeapFree` of that block. -/
theorem create_proxy_event_failure_rolls_back (p : Ptr) (logger : Option Ptr)
    (paths : connection_paths) (exit_event : HANDLE) (s : Process)
    (hfresh : s.heap p = none) :
    ∃ r, create_proxy (some p) none logger paths exit_event s = Outcome.ok r ∧
      r.ret = false ∧ r.out_proxy = none ∧
      r.state.heap = s.heap ∧ r.state.handles = s.handles ∧
      r.state.calls = s.calls ++ [Call.HeapFree p] := by
  simp [create_proxy, HeapAlloc, CreateEvent, HeapFree]
  funext q
  by_cases hq : q = p
  · simp [hq, hfresh]
  · simp [hq]

/-- Claim C9 at `two_record_instance`, with the free address 200 handed out. -/
theorem create_proxy_event_failure_rolls_back_witness :
    two_record_instance.heap 200 = none ∧
    ∃ r, create_proxy (some 200) none (some 5) { raw := [4] } (some 9) two_record_instance
        = Outcome.ok r ∧
      r.ret = false ∧ r.out_proxy = none ∧
      r.state.heap = two_record_instance.heap ∧
      r.state.handles = two_record_instance.handles ∧
      r.state.calls = two_record_instance.calls ++ [Call.HeapFree 200] :=
  ⟨rfl, create_proxy_event_failure_rolls_back 200 (some 5) { raw := [4] } (some 9)
    two_record_instance rfl⟩

/-- Claim C10 as stated fails: in `head_without_tail_instance` the walk from the head does not
end at the tail pointer (which is null), so the third invariant is violated, yet
`destroy_proxy` with assertions compiled in runs to the end and no assertion fails. -/
theorem destroy_proxy_accepts_broken_walk :
    ¬ walk_covers_allocated head_without_tail_instance (sample_proxy (some 1) none) ∧
    ¬ list_invariants head_without_tail_instance 100 ∧
    (∃ s2, destroy_proxy false 1 100 head_without_tail_instance = Outcome.ok s2) ∧
    ∀ line, destroy_proxy false 1 100 head_without_tail_instance
      ≠ Outcome.assert_failed line := by
  have h3 : ¬ walk_covers_allocated head_without_tail_instance (sample_proxy (some 1) none) := by
    rintro ⟨l, hw, -, -, hlast⟩
    have hl : l = [] := List.getLast?_eq_none_iff.mp hlast
    subst hl
    cases hw
  refine ⟨h3, ?_, ⟨_, rfl⟩, ?_⟩
  · rintro ⟨d, hd, -, -, h⟩
    cases hd
    exact h3 h
  · intro line h
    cases h

/-- Claim C10 (amended): with assertions compiled in, on an instance whose head and tail pointers
are null or point at live records, a head that has a predecessor or a tail that has a successor
makes the entry check of `destroy_proxy` fail as an assertion (line 62 or line 63). -/
theorem destroy_proxy_asserts_on_link_violation (fuel : Nat) (proxy : Ptr) (s : Process)
    (d : proxy_data) (hd : s.heap proxy = some (Block.proxy d))
    (hs : ∀ a, d.connections_start = some a → (s.entry_at a).isSome)
    (he : ∀ a, d.connections_end = some a → (s.entry_at a).isSome)
    (hv : ¬ head_has_no_predecessor s d ∨ ¬ tail_has_no_successor s d) :
    destroy_proxy false fuel proxy s = Outcome.assert_failed 62 ∨
      destroy_proxy false fuel proxy s = Outcome.assert_failed 63 := by
  by_cases h1 : head_has_no_predecessor s d
  · right
    have h2 : ¬ tail_has_no_successor s d := by
      rcases hv with h | h
      · exact absurd h1 h
      · exact h
    unfold tail_has_no_successor at h2
    push_neg at h2
    obtain ⟨t, ht, hno⟩ := h2
    obtain ⟨et, het⟩ := Option.isSome_iff_exists.mp (he t ht)
    have hnext : et.next.isNone = false := by
      cases hn : et.next with
      | none => exact absurd hn (hno et het)
      | some b => rfl
    cases hstart : d.connections_start with
    | none =>
      simp [destroy_proxy, load_proxy_of_heap hd, hstart, ht, c_assert,
        load_entry_of_heap (entry_at_eq_some.mp het), hnext]
    | some a =>
      obtain ⟨ea, hea, hprev⟩ := h1 a hstart
      simp [destroy_proxy, load_proxy_of_heap hd, hstart, ht, c_assert,
        load_entry_of_heap (entry_at_eq_some.mp het), hnext,
        load_entry_of_heap (entry_at_eq_some.mp hea), hprev]
  · left
    unfold head_has_no_predecessor at h1
    push_neg at h1
    obtain ⟨a, ha, hno⟩ := h1
    obtain ⟨ea, hea⟩ := Option.isSome_iff_exists.mp (hs a ha)
    have hprev : ea.previous.isNone = false := by
      cases hn : ea.previous with
      | none => exact absurd hn (hno ea hea)
      | some b => rfl
    simp [destroy_proxy, load_proxy_of_heap hd, ha, c_assert,
      load_entry_of_heap (entry_at_eq_some.mp hea), hprev]

/-- The amended claim C10 at `tail_with_successor_instance`. -/
theorem destroy_proxy_asserts_on_link_violation_witness :
    ¬ tail_has_no_successor tail_with_successor_instance (sample_proxy (some 1) (some 1)) ∧
    (destroy_proxy false 5 100 tail_with_successor_instance = Outcome.assert_failed 62 ∨
      destroy_proxy false 5 100 tail_with_successor_instance = Outcome.assert_failed 63) :=
  have hv : ¬ tail_has_no_successor tail_with_successor_instance
      (sample_proxy (some 1) (some 1)) := by
    intro h
    obtain ⟨e, he, hn⟩ := h 1 rfl
    cases he
    cases hn
  ⟨hv, destroy_proxy_asserts_on_link_violation 5 100 tail_with_successor_instance
    (sample_proxy (some 1) (some 1)) rfl
    (by intro a ha; cases ha; rfl) (by intro a ha; cases ha; rfl) (Or.inr hv)⟩

/-- Claim C11: whenever `HeapAlloc` and `CreateEvent` both hand something out, `create_proxy`
returns `TRUE` and writes to `*out_proxy` the address of an instance whose `logger`, `paths` and
`exit_event` are the arguments, whose `connections_start` and `connections_end` are null, and
whose connect event is the handle `CreateEvent(NULL, TRUE, FALSE, NULL)` just returned: a
manual-reset event that starts unsignalled. In every case `create_proxy` returns, and it returns
`TRUE` exactly when both the allocation and the event creation succeeded. -/
theorem create_proxy_builds_empty_instance (logger : Option Ptr) (paths : connection_paths)
    (exit_event : HANDLE) (s : Process) :
    (∀ p h, ∃ r, create_proxy (some p) (some h) logger paths exit_event s = Outcome.ok r ∧
      r.ret = true ∧ r.out_proxy = some p ∧
      r.state.heap p = some (Block.proxy
        { logger := logger, paths := paths, exit_event := exit_event,
          connect_overlapped := { hEvent := some h },
          connections_start := none, connections_end := none }) ∧
      r.state.handles h = some { manual_reset := true, signaled := false } ∧
      r.state.handles = (CreateEvent (some h) true false s).2.handles ∧
      r.state.calls = s.calls) ∧
    (∀ heap_choice event_choice, ∃ r,
      create_proxy heap_choice event_choice logger paths exit_event s = Outcome.ok r ∧
      (r.ret = true ↔ heap_choice.isSome = true ∧ event_choice.isSome = true) ∧
      (r.out_proxy.isSome = r.ret)) := by
  constructor
  · intro p h
    simp [create_proxy, HeapAlloc, CreateEvent, proxy_data.zero, Process.load_proxy, Process.store]
  · intro hc ec
    cases hc with
    | none => simp [create_proxy, HeapAlloc]
    | some p =>
      cases ec with
      | none => simp [create_proxy, HeapAlloc, CreateEvent, HeapFree]
      | some h => simp [create_proxy, HeapAlloc, CreateEvent, Process.load_proxy, Process.store]

/-- Claim C12: create an instance, allocate one record A, destroy the instance. All three calls
run to the end with assertions compiled in as without (no assertion fires), and `destroy_proxy`
frees A, closes the connect event and frees the instance, in that order and nothing else: the
heap is back to what it was before `create_proxy`. -/
theorem scenario_allocate_one_then_destroy (ndebug : Bool) (off fuel : Nat) (p a : Ptr) (h : Nat)
    (logger : Option Ptr) (paths : connection_paths) (exit_event : HANDLE) (s : Process)
    (hp : s.heap p = none) (ha : s.heap a = none) (hap : a ≠ p) :
    ∃ r ar s2, create_proxy (some p) (some h) logger paths exit_event s = Outcome.ok r ∧
      r.ret = true ∧ r.out_proxy = some p ∧
      allocate_connection ndebug off (some a) p r.state = Outcome.ok ar ∧
      ar.ret = true ∧ ar.out_connection = some (a + off) ∧
      destroy_proxy ndebug (fuel + 1) p ar.state = Outcome.ok s2 ∧
      s2.calls = s.calls ++ [Call.HeapFree a, Call.CloseHandle (some h), Call.HeapFree p] ∧
      s2.heap = s.heap ∧ s2.handles h = none := by
  obtain ⟨r, hr, hret, hout, hheap, hhandles, hcalls⟩ :=
    create_proxy_success_eval p h logger paths exit_event s
  have hd := hheap p
  rw [if_pos rfl] at hd
  have hfresh : r.state.heap a = none := by rw [hheap, if_neg hap, ha]
  have hA := allocate_empty_eval ndebug off hd hfresh rfl rfl
  have hdA : ((r.state.store a (Block.entry connection_list_entry.zero)).store p
      (Block.proxy
        { logger := logger, paths := paths, exit_event := exit_event,
          connect_overlapped := { hEvent := some h },
          connections_start := some a, connections_end := some a })).heap p
      = some (Block.proxy
        { logger := logger, paths := paths, exit_event := exit_event,
          connect_overlapped := { hEvent := some h },
          connections_start := some a, connections_end := some a }) := by simp
  have haA : ((r.state.store a (Block.entry connection_list_entry.zero)).store p
      (Block.proxy
        { logger := logger, paths := paths, exit_event := exit_event,
          connect_overlapped := { hEvent := some h },
          connections_start := some a, connections_end := some a })).heap a
      = some (Block.entry { previous := none, next := none }) := by
    simp [hap, connection_list_entry.zero]
  obtain ⟨s2, hs2, hc2, hh2, hk2⟩ := destroy_single_eval ndebug fuel hdA haA rfl rfl
  refine ⟨r, _, s2, hr, hret, hout, hA, rfl, rfl, hs2, ?_, ?_, ?_⟩
  · rw [hc2]
    simp [hcalls]
  · funext q
    rw [hh2]
    by_cases hq : q = p
    · simp [hq, hp]
    · by_cases hq2 : q = a
      · simp [hq2, ha, hap]
      · simp [hq, hq2, hheap]
  · rw [hk2]
    simp [CloseHandle]

/-- Claim C12 at the empty process, with instance address 100, record address 1 and event
handle 7. -/
theorem scenario_allocate_one_then_destroy_witness :
    Process.empty.heap 100 = none ∧ Process.empty.heap 1 = none ∧ (1 : Ptr) ≠ 100 ∧
    ∃ r ar s2, create_proxy (some 100) (some 7) none { raw := [] } (some 9) Process.empty
        = Outcome.ok r ∧
      r.ret = true ∧ r.out_proxy = some 100 ∧
      allocate_connection false 16 (some 1) 100 r.state = Outcome.ok ar ∧
      ar.ret = true ∧ ar.out_connection = some (1 + 16) ∧
      destroy_proxy false (0 + 1) 100 ar.state = Outcome.ok s2 ∧
      s2.calls = Process.empty.calls
        ++ [Call.HeapFree 1, Call.CloseHandle (some 7), Call.HeapFree 100] ∧
      s2.heap = Process.empty.heap ∧ s2.handles 7 = none :=
  ⟨rfl, rfl, by decide,
    scenario_allocate_one_then_destroy false 16 0 100 1 7 none { raw := [] } (some 9)
      Process.empty rfl rfl (by decide)⟩

/-- Claim C13: the exit event is left alone by all four functions. `create_proxy` always
returns, makes no `CloseHandle` call, changes no handle other than the one `CreateEvent` hands
out, and stores the `exit_event` argument in the instance it writes out. Whenever
`allocate_connection` or `deallocate_connection` runs to the end, the handle table is unchanged,
no `CloseHandle` call was made, and the instance holds the same `exit_event` and connect event.
Whenever `destroy_proxy` runs to the end, its one `CloseHandle` call is on the connect event, and
an exit event that differs from the connect event is the same event object as before. -/
theorem exit_event_is_left_alone :
    (∀ (heap_choice : Option Ptr) (event_choice : Option Nat) (logger : Option Ptr)
        (paths : connection_paths) (exit_event : HANDLE) (s : Process),
      ∃ r, create_proxy heap_choice event_choice logger paths exit_event s = Outcome.ok r ∧
        closed_handles r.state.calls = closed_handles s.calls ∧
        (∀ k, event_choice ≠ some k → r.state.handles k = s.handles k) ∧
        (∀ p, r.out_proxy = some p →
          ∃ d, r.state.heap p = some (Block.proxy d) ∧ d.exit_event = exit_event)) ∧
    (∀ (ndebug : Bool) (off : Nat) (heap_choice : Option Ptr) (proxy : Ptr) (s : Process)
        (r : allocate_result),
      allocate_connection ndebug off heap_choice proxy s = Outcome.ok r →
        events_kept proxy s r.state) ∧
    (∀ (off : Nat) (proxy connection : Ptr) (s s2 : Process),
      deallocate_connection off proxy connection s = Outcome.ok s2 → events_kept proxy s s2) ∧
    (∀ (ndebug : Bool) (fuel : Nat) (proxy : Ptr) (s s2 : Process) (d : proxy_data),
      s.heap proxy = some (Block.proxy d) →
      destroy_proxy ndebug fuel proxy s = Outcome.ok s2 →
        closed_handles s2.calls = closed_handles s.calls ++ [d.connect_overlapped.hEvent] ∧
        ∀ k, d.exit_event = some k → d.exit_event ≠ d.connect_overlapped.hEvent →
          s2.handles k = s.handles k) := by
  refine ⟨?_, ?_, ?_, ?_⟩
  · intro hc ec logger paths exit_event s
    cases hc with
    | none => exact ⟨_, rfl, rfl, fun k _ => rfl, fun p hp => by cases hp⟩
    | some p =>
      cases ec with
      | none =>
        obtain ⟨r, hr, -, hout, -, hh, hc⟩ :=
          create_proxy_event_failure_eval p logger paths exit_event s
        refine ⟨r, hr, ?_, fun k _ => by rw [hh], ?_⟩
        · rw [hc]
          simp [closed_handles_append, closed_handles]
        · intro q hq
          rw [hout] at hq
          cases hq
      | some h =>
        obtain ⟨r, hr, -, hout, hheap, hh, hc⟩ :=
          create_proxy_success_eval p h logger paths exit_event s
        refine ⟨r, hr, by rw [hc], ?_, ?_⟩
        · intro k hk
          have hkh : k ≠ h := fun e => hk (by rw [e])
          rw [hh, if_neg hkh]
        · intro q hq
          rw [hout] at hq
          cases hq
          exact ⟨_, by rw [hheap, if_pos rfl], rfl⟩
  · intro ndebug off hc proxy s r h
    exact allocate_connection_kept h
  · intro off proxy c s s2 h
    exact deallocate_connection_kept h
  · intro ndebug fuel proxy s s2 d hd h
    obtain ⟨h1, h2⟩ := destroy_proxy_closes_connect_event hd h
    refine ⟨h1, ?_⟩
    intro k hk hne
    exact h2 k (fun e => hne (by rw [hk, e]))

/-- Claim C13 at `running_instance`: removing record 1, adding a record at address 3, and
destroying the instance all leave the exit event (handle 9) as it was. -/
theorem exit_event_is_left_alone_witness :
    (∃ s2, deallocate_connection 16 100 (1 + 16) running_instance = Outcome.ok s2 ∧
      events_kept 100 running_instance s2) ∧
    (∃ r, allocate_connection false 16 (some 3) 100 running_instance = Outcome.ok r ∧
      events_kept 100 running_instance r.state) ∧
    (∃ s2, running_instance.heap 100 = some (Block.proxy (sample_proxy (some 1) (some 2))) ∧
      destroy_proxy false 2 100 running_instance = Outcome.ok s2 ∧
      closed_handles s2.calls = closed_handles running_instance.calls ++ [some 7] ∧
      s2.handles 9 = running_instance.handles 9) :=
  ⟨⟨_, rfl, exit_event_is_left_alone.2.2.1 16 100 (1 + 16) running_instance _ rfl⟩,
    ⟨_, rfl, exit_event_is_left_alone.2.1 false 16 (some 3) 100 running_instance _ rfl⟩,
    ⟨_, rfl, rfl,
      (exit_event_is_left_alone.2.2.2 false 2 100 running_instance _
        (sample_proxy (some 1) (some 2)) rfl rfl).1,
      (exit_event_is_left_alone.2.2.2 false 2 100 running_instance _
        (sample_proxy (some 1) (some 2)) rfl rfl).2 9 rfl (by decide)⟩⟩

/-- Claim C14: on an instance whose `connections_start` and `connections_end` are both null, an
`allocate_connection` whose `HeapAlloc` hands out a fresh block returns `TRUE`; the new record is
both `connections_start` and `connections_end`, its `previous` and `next` links are null, the
handle written to `*out_connection` is the address of the record's `connection` member, and no
other block changes. -/
theorem allocate_on_empty_makes_head_and_tail (ndebug : Bool) (off : Nat) (proxy entry : Ptr)
    (s : Process) (d : proxy_data)
    (hd : s.heap proxy = some (Block.proxy d)) (hfresh : s.heap entry = none)
    (hstart : d.connections_start = none) (hend : d.connections_end = none) :
    ∃ r, allocate_connection ndebug off (some entry) proxy s = Outcome.ok r ∧
      r.ret = true ∧ r.out_connection = some (entry + off) ∧
      r.state.heap proxy = some (Block.proxy
        { d with connections_start := some entry, connections_end := some entry }) ∧
      r.state.entry_at entry = some { previous := none, next := none } ∧
      (∀ q, q ≠ proxy → q ≠ entry → r.state.heap q = s.heap q) := by
  have hne : proxy ≠ entry := by
    intro h
    rw [h, hfresh] at hd
    cases hd
  refine ⟨_, allocate_empty_eval ndebug off hd hfresh hend hstart, rfl, rfl, ?_, ?_, ?_⟩
  · simp
  · simp [Process.entry_at, hne.symm, connection_list_entry.zero]
  · intro q hq1 hq2
    simp [hq1, hq2]

/-- Claim C14 at `empty_instance`, with the record placed at address 1. -/
theorem allocate_on_empty_makes_head_and_tail_witness :
    empty_instance.heap 100 = some (Block.proxy (sample_proxy none none)) ∧
    empty_instance.heap 1 = none ∧
    ∃ r, allocate_connection false 16 (some 1) 100 empty_instance = Outcome.ok r ∧
      r.ret = true ∧ r.out_connection = some (1 + 16) ∧
      r.state.heap 100 = some (Block.proxy
        { sample_proxy none none with
          connections_start := some 1, connections_end := some 1 }) ∧
      r.state.entry_at 1 = some { previous := none, next := none } ∧
      (∀ q, q ≠ 100 → q ≠ 1 → r.state.heap q = empty_instance.heap q) :=
  ⟨rfl, rfl, allocate_on_empty_makes_head_and_tail false 16 100 1 empty_instance
    (sample_proxy none none) rfl rfl rfl rfl⟩

/-- Claim C15 (what the code does): with assertions compiled in, two successful allocations on a
fresh instance reach a state in which the next `allocate_connection` fails the assertion of line
108 (`connections_end` is record 1, whose `next` is record 2); deallocating record 1 from there
reaches a state in which the next `allocate_connection` fails the assertion of line 101
(`connections_end` is null while `connections_start` is record 2). -/
theorem reachable_states_fail_allocate_assertions :
    ∃ r, create_proxy (some 100) (some 7) none { raw := [] } (some 9) Process.empty
        = Outcome.ok r ∧
      r.ret = true ∧ r.out_proxy = some 100 ∧
      (∃ s d, run_calls false 16 100
          [RegistryCall.allocate (some 1), RegistryCall.allocate (some 2)] r.state
          = Outcome.ok s ∧
        s.load_proxy 100 = Outcome.ok d ∧ d.connections_end = some 1 ∧
        s.entry_at 1 = some { previous := none, next := some 2 } ∧
        allocate_connection false 16 (some 3) 100 s = Outcome.assert_failed 108) ∧
      (∃ s d, run_calls false 16 100
          [RegistryCall.allocate (some 1), RegistryCall.allocate (some 2),
           RegistryCall.deallocate (1 + 16)] r.state = Outcome.ok s ∧
        s.load_proxy 100 = Outcome.ok d ∧
        d.connections_end = none ∧ d.connections_start = some 2 ∧
        allocate_connection false 16 (some 3) 100 s = Outcome.assert_failed 101) :=
  ⟨_, rfl, rfl, rfl, ⟨_, _, rfl, rfl, rfl, rfl, rfl⟩, ⟨_, _, rfl, rfl, rfl, rfl, rfl⟩⟩

/-- Claim C16 (what the code does): allocate records 1 and 2 on a fresh instance, then
deallocate record 1. All calls succeed, with assertions compiled in as without, and the state
reached has `connections_start` on record 2 while `connections_end` is null. -/
theorem head_survives_without_tail (ndebug : Bool) :
    ∃ r s d, create_proxy (some 100) (some 7) none { raw := [] } (some 9) Process.empty
        = Outcome.ok r ∧
      r.ret = true ∧ r.out_proxy = some 100 ∧
      run_calls ndebug 16 100
        [RegistryCall.allocate (some 1), RegistryCall.allocate (some 2),
         RegistryCall.deallocate (1 + 16)] r.state = Outcome.ok s ∧
      s.load_proxy 100 = Outcome.ok d ∧
      d.connections_start = some 2 ∧ d.connections_end = none ∧
      s.entry_at 2 = some { previous := none, next := none } ∧
      ¬ (d.connections_start = none ↔ d.connections_end = none) := by
  cases ndebug
  · exact ⟨_, _, _, rfl, rfl, rfl, rfl, rfl, rfl, rfl, rfl, by decide⟩
  · exact ⟨_, _, _, rfl, rfl, rfl, rfl, rfl, rfl, rfl, rfl, by decide⟩

end Winestreamproxy
